import Mathlib

/-!
# Verification of the NHL standings pipeline

A shallow embedding in Lean 4 of the core of the `nhl_better_standings`
repository: the raw-snapshot validator (`src/utils/validation.ts`), the
ranking engine (`src/utils/calculations.ts`), the playoff classifier
(`src/utils/playoffs.ts`), the standings processor
(`src/scripts/processStandings.ts`), the playoff projector
(`src/utils/playoffCalculator.ts`) and the acquirer (`src/scripts/fetchData.ts`).

JavaScript numbers are modelled as exact rationals (`ℚ`), with `NaN` and the
infinities represented explicitly where untrusted input can carry them.
`Math.round` rounds half toward positive infinity, which is `⌊x + 1/2⌋`.
Stateful iteration (`forEach` with an index, `Map` grouping in insertion
order) is modelled by structural recursion; `Array.prototype.sort`, which
ECMAScript requires to be a stable sort consistent with the comparator, is
modelled by `List.mergeSort` on the comparator's non-strict relation.
-/

set_option maxHeartbeats 1000000

namespace NHL

open scoped List

/-! ## JavaScript value model (for the untrusted validator input) -/

/-- A JavaScript number: an ordinary (finite) number, `NaN`, or ±`Infinity`. -/
inductive JsNum where
  | num (q : ℚ)
  | nan
  | inf
  | ninf
deriving DecidableEq

/-- `Number.isFinite`. -/
def JsNum.isFinite : JsNum → Bool
  | .num _ => true
  | _ => false

/-- The JavaScript `<` comparison on numbers (`NaN` compares false). -/
def JsNum.lt : JsNum → JsNum → Bool
  | .num a, .num b => decide (a < b)
  | .nan, _ => false
  | _, .nan => false
  | .ninf, .ninf => false
  | .ninf, _ => true
  | .inf, _ => false
  | .num _, .inf => true
  | .num _, .ninf => false

/-- The JavaScript `+` on two numbers. -/
def JsNum.add : JsNum → JsNum → JsNum
  | .nan, _ => .nan
  | _, .nan => .nan
  | .inf, .ninf => .nan
  | .ninf, .inf => .nan
  | .inf, _ => .inf
  | _, .inf => .inf
  | .ninf, _ => .ninf
  | _, .ninf => .ninf
  | .num a, .num b => .num (a + b)

/-- The JavaScript `* 2` on a number (only ever applied with the literal 2). -/
def JsNum.double : JsNum → JsNum
  | .num a => .num (2 * a)
  | .nan => .nan
  | .inf => .inf
  | .ninf => .ninf

/-- JavaScript strict equality `===` on two numbers (`NaN !== NaN`). -/
def JsNum.seq : JsNum → JsNum → Bool
  | .num a, .num b => decide (a = b)
  | .inf, .inf => true
  | .ninf, .ninf => true
  | _, _ => false

/-- The value found in an object's `default` property: a string, a number,
a boolean, or some further object (whose own contents the validator never
reads, so they are collapsed). -/
inductive JsPrim where
  | str (s : String)
  | numv (n : JsNum)
  | boolv (b : Bool)
  | objOpaque
deriving DecidableEq

/-- JavaScript truthiness of a `default` value. -/
def JsPrim.truthy : JsPrim → Bool
  | .str s => decide (s ≠ "")
  | .numv (.num q) => decide (q ≠ 0)
  | .numv .nan => false
  | .numv .inf => true
  | .numv .ninf => true
  | .boolv b => b
  | .objOpaque => true

/-- `typeof v === 'string'` for a `default` value. -/
def JsPrim.isString : JsPrim → Bool
  | .str _ => true
  | _ => false

/-- A JavaScript value as far as the validator inspects one: a string, a
number, a boolean, or an object whose `default` property is optionally
present.  (Other object properties are never read by the validator.) -/
inductive JsVal where
  | str (s : String)
  | numv (n : JsNum)
  | boolv (b : Bool)
  | obj (default : Option JsPrim)
deriving DecidableEq

/-- JavaScript truthiness of a value. -/
def JsVal.truthy : JsVal → Bool
  | .str s => decide (s ≠ "")
  | .numv (.num q) => decide (q ≠ 0)
  | .numv .nan => false
  | .numv .inf => true
  | .numv .ninf => true
  | .boolv b => b
  | .obj _ => true

/-- `typeof v === 'object'` (for the values representable here). -/
def JsVal.isObject : JsVal → Bool
  | .obj _ => true
  | _ => false

/-- Property access `v.default` (undefined on non-objects). -/
def JsVal.defaultProp : JsVal → Option JsPrim
  | .obj d => d
  | _ => none

/-! ## Validator data model (`src/utils/validation.ts`) -/

/-- Validation error details (`ValidationError`).  The optional `value`
payload is omitted: no claim inspects it. -/
structure ValidationError where
  field : String
  message : String
deriving DecidableEq

/-- Validation result (`ValidationResult`). -/
structure ValidationResult where
  isValid : Bool
  errors : List ValidationError
deriving DecidableEq

/-- An untrusted standings entry: every field the validator reads, each
possibly absent (`none` covers both `undefined` and `null`).  The division
and conference names are modelled as optional strings (the validator's
`includes` checks succeed only on strings from the fixed sets, so non-string
values behave like any other invalid name). -/
structure RawEntry where
  teamName : Option JsVal
  teamAbbrev : Option JsVal
  wins : Option JsNum
  losses : Option JsNum
  otLosses : Option JsNum
  points : Option JsNum
  gamesPlayed : Option JsNum
  regulationWins : Option JsNum
  divisionName : Option String
  conferenceName : Option String
deriving DecidableEq

/-- The untrusted payload handed to `validateNHLApiResponse`: `none` at the
outer layer is a null/undefined response, `none` at `standings` is a missing
standings array.  (A non-array `standings` value is not representable here;
no claim exercises that branch.) -/
structure RawPayload where
  standings : Option (List RawEntry)
deriving DecidableEq

/-- `EXPECTED_TEAM_COUNT`. -/
def EXPECTED_TEAM_COUNT : ℕ := 32

/-- `VALID_DIVISIONS`. -/
def VALID_DIVISIONS : List String := ["Atlantic", "Metropolitan", "Central", "Pacific"]

/-- `VALID_CONFERENCES`. -/
def VALID_CONFERENCES : List String := ["Eastern", "Western"]

/-- The per-field "missing required field" errors, in the source's field
order. -/
def requiredFieldErrors (pre : String) (e : RawEntry) : List ValidationError :=
  (if e.teamName.isNone then [⟨pre ++ ".teamName", "Missing required field: teamName"⟩] else [])
  ++ (if e.teamAbbrev.isNone then [⟨pre ++ ".teamAbbrev", "Missing required field: teamAbbrev"⟩] else [])
  ++ (if e.wins.isNone then [⟨pre ++ ".wins", "Missing required field: wins"⟩] else [])
  ++ (if e.losses.isNone then [⟨pre ++ ".losses", "Missing required field: losses"⟩] else [])
  ++ (if e.otLosses.isNone then [⟨pre ++ ".otLosses", "Missing required field: otLosses"⟩] else [])
  ++ (if e.points.isNone then [⟨pre ++ ".points", "Missing required field: points"⟩] else [])
  ++ (if e.gamesPlayed.isNone then [⟨pre ++ ".gamesPlayed", "Missing required field: gamesPlayed"⟩] else [])
  ++ (if e.regulationWins.isNone then [⟨pre ++ ".regulationWins", "Missing required field: regulationWins"⟩] else [])
  ++ (if e.divisionName.isNone then [⟨pre ++ ".divisionName", "Missing required field: divisionName"⟩] else [])
  ++ (if e.conferenceName.isNone then [⟨pre ++ ".conferenceName", "Missing required field: conferenceName"⟩] else [])

/-- One numeric-field validation (`typeof`/finite/range).  The `typeof`
check cannot fire in this model because numeric slots hold JavaScript
numbers by construction. -/
def numericFieldErrors (pre fname : String) (v : JsNum) (lo hi : ℚ) : List ValidationError :=
  if !v.isFinite then
    [⟨pre ++ "." ++ fname, "Field " ++ fname ++ " must be a finite number"⟩]
  else if v.lt (.num lo) || (JsNum.num hi).lt v then
    [⟨pre ++ "." ++ fname, "Field " ++ fname ++ " must be between " ++ toString lo ++ " and " ++ toString hi⟩]
  else
    []

/-- The nested name/abbreviation structure check: run only when the value is
truthy and an object; errors when `default` is absent, falsy, or not a
string. -/
def nameStructureErrors (pre fname msg : String) (v : JsVal) : List ValidationError :=
  if v.truthy && v.isObject then
    match v.defaultProp with
    | none => [⟨pre ++ "." ++ fname ++ ".default", msg⟩]
    | some d =>
      if !d.truthy || !d.isString then [⟨pre ++ "." ++ fname ++ ".default", msg⟩] else []
  else
    []

/-- `validateTeamEntry`: the missing-field errors short-circuit the rest of
the per-entry checks; otherwise the numeric, consistency, name-set and
structure checks accumulate in source order.  Message texts that
interpolate offending values are kept without the interpolation (no claim
inspects message contents); field paths are kept exactly. -/
def validateTeamEntry (e : RawEntry) (index : ℕ) : List ValidationError :=
  let entryPath := "standings[" ++ toString index ++ "]"
  match e.teamName, e.teamAbbrev, e.wins, e.losses, e.otLosses, e.points,
      e.gamesPlayed, e.regulationWins, e.divisionName, e.conferenceName with
  | some tn, some ta, some w, some l, some otl, some p, some gp, some rw, some dn, some cn =>
    numericFieldErrors entryPath "wins" w 0 82
    ++ numericFieldErrors entryPath "losses" l 0 82
    ++ numericFieldErrors entryPath "otLosses" otl 0 82
    ++ numericFieldErrors entryPath "points" p 0 164
    ++ numericFieldErrors entryPath "gamesPlayed" gp 0 82
    ++ numericFieldErrors entryPath "regulationWins" rw 0 82
    ++ (if !(gp.seq ((w.add l).add otl)) then
        [⟨entryPath ++ ".gamesPlayed", "Games played does not match wins + losses + otLosses"⟩] else [])
    ++ (if !(p.seq (w.double.add otl)) then
        [⟨entryPath ++ ".points", "Points does not match expected calculation"⟩] else [])
    ++ (if w.lt rw then
        [⟨entryPath ++ ".regulationWins", "Regulation wins cannot exceed total wins"⟩] else [])
    ++ (if !(VALID_DIVISIONS.contains dn) then
        [⟨entryPath ++ ".divisionName", "Invalid division name"⟩] else [])
    ++ (if !(VALID_CONFERENCES.contains cn) then
        [⟨entryPath ++ ".conferenceName", "Invalid conference name"⟩] else [])
    ++ nameStructureErrors entryPath "teamName" "Team name must have a default string property" tn
    ++ nameStructureErrors entryPath "teamAbbrev" "Team abbreviation must have a default string property" ta
  | _, _, _, _, _, _, _, _, _, _ => requiredFieldErrors entryPath e

/-- `data.standings.forEach((team, index) => ...)`: every entry is validated
with its index. -/
def validateEntries : List RawEntry → ℕ → List ValidationError
  | [], _ => []
  | e :: rest, i => validateTeamEntry e i ++ validateEntries rest (i + 1)

/-- `validateNHLApiResponse`. -/
def validateNHLApiResponse (data : Option RawPayload) : ValidationResult :=
  match data with
  | none => ⟨false, [⟨"data", "NHL API response is null or undefined"⟩]⟩
  | some payload =>
    match payload.standings with
    | none => ⟨false, [⟨"standings", "Missing standings array in API response"⟩]⟩
    | some standings =>
      let countErrors : List ValidationError :=
        if standings.length ≠ EXPECTED_TEAM_COUNT then
          [⟨"standings.length", "Expected 32 teams, found " ++ toString standings.length⟩]
        else []
      let errors := countErrors ++ validateEntries standings 0
      ⟨errors.isEmpty, errors⟩

/-! ## Typed API entries (`src/types/nhl.ts`) and the narrower validators -/

/-- A typed standings entry as consumed after validation
(`NHLStandingEntry`); `teamName`/`teamAbbrev` stand for the `.default`
strings of the corresponding name objects. -/
structure NHLStandingEntry where
  teamName : String
  teamAbbrev : String
  wins : ℚ
  losses : ℚ
  otLosses : ℚ
  points : ℚ
  gamesPlayed : ℚ
  regulationWins : ℚ
  regulationPlusOtWins : ℚ
  divisionName : String
  conferenceName : String
deriving DecidableEq

/-- `NHLApiResponse`. -/
structure NHLApiResponse where
  standings : List NHLStandingEntry
deriving DecidableEq

/-- The untrusted view of a typed entry (how a well-formed API payload
presents itself to `validateNHLApiResponse`). -/
def NHLStandingEntry.toRaw (e : NHLStandingEntry) : RawEntry where
  teamName := some (.obj (some (.str e.teamName)))
  teamAbbrev := some (.obj (some (.str e.teamAbbrev)))
  wins := some (.num e.wins)
  losses := some (.num e.losses)
  otLosses := some (.num e.otLosses)
  points := some (.num e.points)
  gamesPlayed := some (.num e.gamesPlayed)
  regulationWins := some (.num e.regulationWins)
  divisionName := some e.divisionName
  conferenceName := some e.conferenceName

/-- `validateTeamCount`. -/
def validateTeamCount (data : NHLApiResponse) : ValidationResult :=
  let errors : List ValidationError :=
    if data.standings.length ≠ EXPECTED_TEAM_COUNT then
      [⟨"standings.length", "Expected 32 teams, found " ++ toString data.standings.length⟩]
    else []
  ⟨errors.isEmpty, errors⟩

/-- The number of entries carrying a given division name
(`divisionCounts[division] || 0`). -/
def divisionCount (data : NHLApiResponse) (d : String) : ℕ :=
  (data.standings.filter (fun e => e.divisionName = d)).length

/-- `validateDivisionDistribution` (8 teams per division). -/
def validateDivisionDistribution (data : NHLApiResponse) : ValidationResult :=
  let errors := VALID_DIVISIONS.flatMap (fun d =>
    if divisionCount data d ≠ 8 then
      [⟨"division." ++ d, "Expected 8 teams in the " ++ d ++ " division"⟩]
    else [])
  ⟨errors.isEmpty, errors⟩

/-- The number of entries carrying a given conference name. -/
def conferenceCount (data : NHLApiResponse) (c : String) : ℕ :=
  (data.standings.filter (fun e => e.conferenceName = c)).length

/-- `validateConferenceDistribution` (16 teams per conference). -/
def validateConferenceDistribution (data : NHLApiResponse) : ValidationResult :=
  let errors := VALID_CONFERENCES.flatMap (fun c =>
    if conferenceCount data c ≠ 16 then
      [⟨"conference." ++ c, "Expected 16 teams in the " ++ c ++ " conference"⟩]
    else [])
  ⟨errors.isEmpty, errors⟩

/-! ## Team model (`src/types/standings.ts`) -/

/-- A processed team record. -/
structure Team where
  id : ℕ
  name : String
  abbreviation : String
  wins : ℚ
  losses : ℚ
  otLosses : ℚ
  points : ℚ
  gamesPlayed : ℚ
  pointPercentage : ℚ
  regulationWins : ℚ
  regulationPlusOtWins : ℚ
  division : String
  conference : String
  isDivisionLeader : Bool
  isWildCard : Bool
  divisionRank : ℕ
  conferenceRank : ℕ
deriving DecidableEq

/-! ## Ranking engine (`src/utils/calculations.ts`) -/

/-- JavaScript `Math.round`: round half toward positive infinity. -/
def jsRound (q : ℚ) : ℤ := ⌊q + 1 / 2⌋

/-- `calculatePointPercentage`. -/
def calculatePointPercentage (points gamesPlayed : ℚ) : ℚ :=
  if gamesPlayed = 0 then 0
  else
    let maxPossiblePoints := gamesPlayed * 2
    let percentage := points / maxPossiblePoints
    (jsRound (percentage * 1000) : ℚ) / 1000

/-- `applyTiebreaker`, with the `TiebreakerResult` enum values inlined
(`TEAM_A_WINS = -1`, `TIE = 0`, `TEAM_B_WINS = 1`). -/
def applyTiebreaker (teamA teamB : Team) : ℤ :=
  if teamA.gamesPlayed < teamB.gamesPlayed then -1
  else if teamA.gamesPlayed > teamB.gamesPlayed then 1
  else if teamA.regulationWins > teamB.regulationWins then -1
  else if teamA.regulationWins < teamB.regulationWins then 1
  else 0

/-- The comparator passed to `sortedTeams.sort`. -/
def compareTeams (teamA teamB : Team) : ℤ :=
  if teamA.pointPercentage > teamB.pointPercentage then -1
  else if teamA.pointPercentage < teamB.pointPercentage then 1
  else applyTiebreaker teamA teamB

/-- The non-strict "ranks at least as high" relation induced by the
comparator (`compareTeams a b ≤ 0`). -/
def teamLE (a b : Team) : Bool := compareTeams a b ≤ 0

/-- `sortTeamsByStandings`: a stable sort by the comparator, on a copy of
the input (the input list is untouched by construction in Lean). -/
def sortTeamsByStandings (teams : List Team) : List Team :=
  teams.mergeSort teamLE

/-! ## Playoff projector (`src/utils/playoffCalculator.ts`) -/

/-- `PlayoffStatus`. -/
inductive PlayoffStatus where
  | clinched
  | eliminated
  | competing
deriving DecidableEq

/-- `PlayoffCalculations`. -/
structure PlayoffCalculations where
  remainingGames : ℚ
  remainingPoints : ℚ
  maxPossiblePoints : ℚ
  pointsGap : ℚ
  requiredPointsPercentage : Option ℚ
  playoffStatus : PlayoffStatus
deriving DecidableEq

/-- `TOTAL_SEASON_GAMES`. -/
def TOTAL_SEASON_GAMES : ℚ := 82

/-- `POINTS_PER_GAME`. -/
def POINTS_PER_GAME : ℚ := 2

/-- `calculatePlayoffStats`. -/
def calculatePlayoffStats (team : Team) (playoffThreshold : ℚ) : PlayoffCalculations :=
  let remainingGames := max 0 (TOTAL_SEASON_GAMES - team.gamesPlayed)
  let remainingPoints := remainingGames * POINTS_PER_GAME
  let maxPossiblePoints := team.points + remainingPoints
  let pointsGap := playoffThreshold - team.points
  if team.points ≥ playoffThreshold then
    { remainingGames, remainingPoints, maxPossiblePoints, pointsGap,
      requiredPointsPercentage := none, playoffStatus := .clinched }
  else if maxPossiblePoints < playoffThreshold then
    { remainingGames, remainingPoints, maxPossiblePoints, pointsGap,
      requiredPointsPercentage := none, playoffStatus := .eliminated }
  else
    { remainingGames, remainingPoints, maxPossiblePoints, pointsGap,
      requiredPointsPercentage :=
        if remainingPoints > 0 then some (pointsGap / remainingPoints * 100) else none,
      playoffStatus := .competing }

/-! ## Insertion-order grouping

`identifyDivisionLeaders`, `identifyWildCards` and `calculateConferenceRanks`
all group a team list with a JavaScript `Map` (keys in first-insertion
order, each group collecting its teams in encounter order) and then process
each group.  `organizeConference` does the same with a plain object.  That
pattern is captured once: the group for key `k` is `ts.filter (key · = k)`,
and groups are emitted for each key in first-occurrence order. -/

/-- The distinct keys of a list, in first-occurrence order (JavaScript `Map`
iteration order). -/
def keysInOrder : List String → List String
  | [] => []
  | k :: ks => k :: keysInOrder (ks.filter (fun x => x ≠ k))
termination_by l => l.length
decreasing_by simpa using Nat.lt_succ_of_le (List.length_filter_le _ _)

/-- Group `ts` by `key` in insertion order and process each group with `f`,
concatenating the results in group order. -/
def groupProcess (key : Team → String) (f : List Team → List Team) (ts : List Team) : List Team :=
  (keysInOrder (ts.map key)).flatMap (fun k => f (ts.filter (fun t => key t = k)))

/-! ## Playoff classifier (`src/utils/playoffs.ts`, embedded in
`src/tests/processStandings.test.ts`) -/

/-- `sortedDivisionTeams.forEach((team, index) => ...)`: mark the top 3 of a
sorted division as leaders and assign 1-based division ranks. -/
def markDivisionRanks : List Team → ℕ → List Team
  | [], _ => []
  | t :: rest, i =>
    { t with isDivisionLeader := decide (i < 3), divisionRank := i + 1 }
      :: markDivisionRanks rest (i + 1)

/-- `identifyDivisionLeaders`. -/
def identifyDivisionLeaders (teams : List Team) : List Team :=
  groupProcess (fun t => t.division)
    (fun divisionTeams => markDivisionRanks (sortTeamsByStandings divisionTeams) 0) teams

/-- The ids of the top 2 teams of a sorted non-leader list
(`wildCardIds`). -/
def wildCardIds (nonDivisionLeaders : List Team) : List ℕ :=
  ((sortTeamsByStandings nonDivisionLeaders).take 2).map (fun t => t.id)

/-- `identifyWildCards`. -/
def identifyWildCards (teams : List Team) : List Team :=
  groupProcess (fun t => t.conference)
    (fun conferenceTeams =>
      let nonDivisionLeaders := conferenceTeams.filter (fun t => !t.isDivisionLeader)
      let wildIds := wildCardIds nonDivisionLeaders
      conferenceTeams.map (fun t => { t with isWildCard := decide (t.id ∈ wildIds) }))
    teams

/-! ## Standings processor (`src/scripts/processStandings.ts`) -/

/-- `transformToTeams`'s per-entry mapping, with the sequential id
(`index + 1`) threaded through the recursion. -/
def transformFrom : List NHLStandingEntry → ℕ → List Team
  | [], _ => []
  | entry :: rest, index =>
    { id := index + 1
      name := entry.teamName
      abbreviation := entry.teamAbbrev
      wins := entry.wins
      losses := entry.losses
      otLosses := entry.otLosses
      points := entry.points
      gamesPlayed := entry.gamesPlayed
      pointPercentage := 0
      regulationWins := entry.regulationWins
      regulationPlusOtWins := entry.regulationPlusOtWins
      division := entry.divisionName
      conference := entry.conferenceName
      isDivisionLeader := false
      isWildCard := false
      divisionRank := 0
      conferenceRank := 0 } :: transformFrom rest (index + 1)

/-- `transformToTeams`. -/
def transformToTeams (standings : List NHLStandingEntry) : List Team :=
  transformFrom standings 0

/-- `sortedTeams.forEach((team, index) => ...)`: assign 1-based conference
ranks along a sorted conference. -/
def markConferenceRanks : List Team → ℕ → List Team
  | [], _ => []
  | t :: rest, i => { t with conferenceRank := i + 1 } :: markConferenceRanks rest (i + 1)

/-- `calculateConferenceRanks`. -/
def calculateConferenceRanks (teams : List Team) : List Team :=
  groupProcess (fun t => t.conference)
    (fun conferenceTeams => markConferenceRanks (sortTeamsByStandings conferenceTeams) 0) teams

/-- `ConferenceStandings`, with the division map as an association list in
key-insertion order. -/
structure ConferenceStandings where
  divisions : List (String × List Team)
  wildCards : List Team
deriving DecidableEq

/-- `organizeConference`. -/
def organizeConference (teams : List Team) (conferenceName : String) : ConferenceStandings :=
  let conferenceTeams := teams.filter (fun t => t.conference = conferenceName)
  let divisions := (keysInOrder (conferenceTeams.map (fun t => t.division))).map
    (fun d => (d, sortTeamsByStandings (conferenceTeams.filter (fun t => t.division = d))))
  let wildCardStandings := conferenceTeams.filter (fun t => !t.isDivisionLeader)
  { divisions, wildCards := sortTeamsByStandings wildCardStandings }

/-- `ProcessedStandings` (staleness metadata omitted: `processStandings`
never sets it). -/
structure ProcessedStandings where
  eastern : ConferenceStandings
  western : ConferenceStandings
  lastUpdated : String
deriving DecidableEq

/-- The classified team list used by `processStandings` before it is
organized into conferences. -/
def classifiedTeams (rawData : NHLApiResponse) : List Team :=
  let teams0 := transformToTeams rawData.standings
  let teams1 := teams0.map (fun t =>
    { t with pointPercentage := calculatePointPercentage t.points t.gamesPlayed })
  calculateConferenceRanks (identifyWildCards (identifyDivisionLeaders teams1))

/-- `processStandings`, with the build timestamp (`new Date().toISOString()`)
passed in as a parameter. -/
def processStandings (rawData : NHLApiResponse) (now : String) : ProcessedStandings :=
  let teams := classifiedTeams rawData
  { eastern := organizeConference teams "Eastern"
    western := organizeConference teams "Western"
    lastUpdated := now }

/-! ## Acquirer (`src/scripts/fetchData.ts`)

One fetch attempt either throws in transport, returns a non-success HTTP
status, or yields a JSON payload (which may still fail validation).  The
cache slot, when present, holds `{ data, timestamp }`. -/

/-- The outcome of one `fetch` of the NHL API. -/
inductive FetchOutcome where
  | netError (msg : String)
  | httpError (status : ℕ)
  | payload (data : Option RawPayload)
deriving DecidableEq

/-- `MAX_RETRIES`. -/
def MAX_RETRIES : ℕ := 3

/-- The cache file contents (`{ data, timestamp }`); `data := none` models a
cache entry whose `data`/`data.standings` is missing. -/
structure CacheEntry where
  data : Option RawPayload
  timestamp : String
deriving DecidableEq

/-- `FetchResult`. -/
structure FetchResult where
  data : RawPayload
  isStale : Bool
  cacheTimestamp : Option String
deriving DecidableEq

/-- The body of one retry-loop iteration: everything that can `throw`
inside the `try` block, as an `Except`. -/
def attemptResult : FetchOutcome → Except String RawPayload
  | .netError msg => .error msg
  | .httpError status => .error ("HTTP error! status: " ++ toString status)
  | .payload data =>
    if (validateNHLApiResponse data).isValid then
      match data with
      | some payload => .ok payload
      | none => .error "Invalid API response: validation failed"
    else
      .error "Invalid API response: validation failed"

/-- `loadCachedData`. -/
def loadCachedData (cache : Option CacheEntry) : Except String FetchResult :=
  match cache with
  | none => .error "No cached data available"
  | some entry =>
    match entry.data with
    | none => .error "Invalid cached data format"
    | some payload =>
      if (validateNHLApiResponse (some payload)).isValid then
        .ok { data := payload, isStale := true, cacheTimestamp := some entry.timestamp }
      else
        .error "Invalid cached data: validation failed"

/-- The fatal error message raised when retries are exhausted and the cache
is unusable (`lastError?.message` is `undefined` when no attempt ran). -/
def fatalMessage (lastError : Option String) : String :=
  "Failed to fetch NHL data after " ++ toString MAX_RETRIES
    ++ " attempts and no cached data available. Last error: "
    ++ (match lastError with | some m => m | none => "undefined")

/-- The retry loop of `fetchNHLData` followed by the cache fallback,
threading `lastError` exactly as the source does. -/
def fetchLoop : List FetchOutcome → Option String → Option CacheEntry → Except String FetchResult
  | [], lastError, cache =>
    match loadCachedData cache with
    | .ok result => .ok result
    | .error _ => .error (fatalMessage lastError)
  | attempt :: rest, _lastError, cache =>
    match attemptResult attempt with
    | .ok payload => .ok { data := payload, isStale := false, cacheTimestamp := none }
    | .error msg => fetchLoop rest (some msg) cache

/-- `fetchNHLData`, over the outcomes of its (up to `MAX_RETRIES`) fetch
attempts and the current cache contents.  The inter-retry sleeps and all
logging are irrelevant to the returned value and are not modelled. -/
def fetchNHLData (attempts : List FetchOutcome) (cache : Option CacheEntry) :
    Except String FetchResult :=
  fetchLoop attempts none cache

/-! ## Cache write (`cacheResponse`): the file-system operation trace -/

/-- A file-system operation performed by `cacheResponse`. -/
inductive FsOp where
  | mkdirRecursive (path : String)
  | writeFile (path : String) (contents : String)
  | rename (src dst : String)
deriving DecidableEq

/-- `CACHE_DIR` (relative to the working directory). -/
def CACHE_DIR : String := ".cache"

/-- `CACHE_FILE`. -/
def CACHE_FILE : String := ".cache/nhl-standings.json"

/-- The file-system operations issued by `cacheResponse(data)`:
a `mkdir` when the cache directory is missing, then a single direct
`fs.writeFileSync` of the serialized `{ data, timestamp }` entry to the
final cache path.  `serialized` stands for the `JSON.stringify` output. -/
def cacheResponseOps (cacheDirExists : Bool) (serialized : String) : List FsOp :=
  (if cacheDirExists then [] else [.mkdirRecursive CACHE_DIR])
    ++ [.writeFile CACHE_FILE serialized]

/-! ## Claim-side predicates and concrete fixtures -/

/-- The spec's ranking order between two teams: strictly higher point
percentage first; on equal percentage fewer games played first; on equal
games played more regulation wins first; otherwise a true tie. -/
def ranksAtLeast (a b : Team) : Prop :=
  a.pointPercentage > b.pointPercentage
    ∨ (a.pointPercentage = b.pointPercentage
        ∧ (a.gamesPlayed < b.gamesPlayed
            ∨ (a.gamesPlayed = b.gamesPlayed
                ∧ (a.regulationWins > b.regulationWins
                    ∨ a.regulationWins = b.regulationWins))))

/-- A true tie: equal on all three ranking keys. -/
def tiedTeams (a b : Team) : Prop :=
  a.pointPercentage = b.pointPercentage ∧ a.gamesPlayed = b.gamesPlayed
    ∧ a.regulationWins = b.regulationWins

/-- The claim's wording for the nested name check: the value is an object
exposing a non-empty string `default` property. -/
def exposesNonEmptyDefaultString : JsVal → Bool
  | .obj (some (.str s)) => decide (s ≠ "")
  | _ => false

/-- All ten required fields of an entry are present. -/
def requiredFieldsPresent (e : RawEntry) : Bool :=
  e.teamName.isSome && e.teamAbbrev.isSome && e.wins.isSome && e.losses.isSome
    && e.otLosses.isSome && e.points.isSome && e.gamesPlayed.isSome
    && e.regulationWins.isSome && e.divisionName.isSome && e.conferenceName.isSome

/-- The non-division-leader teams of one conference, in encounter order
(the list `identifyWildCards` sorts and takes the top 2 of). -/
def nonLeadersOfConference (teams : List Team) (c : String) : List Team :=
  (teams.filter (fun t => t.conference = c)).filter (fun t => !t.isDivisionLeader)

/-- A neutral team record used to build concrete test teams. -/
def baseTeam : Team where
  id := 1
  name := "Test Team"
  abbreviation := "TST"
  wins := 0
  losses := 0
  otLosses := 0
  points := 0
  gamesPlayed := 0
  pointPercentage := 0
  regulationWins := 0
  regulationPlusOtWins := 0
  division := "Atlantic"
  conference := "Eastern"
  isDivisionLeader := false
  isWildCard := false
  divisionRank := 0
  conferenceRank := 0

/-- A team with the given points and games played (the projector reads
nothing else). -/
def projTeam (points gamesPlayed : ℚ) : Team :=
  { baseTeam with points := points, gamesPlayed := gamesPlayed }

/-- A well-formed raw entry (20 wins, 10 losses, 2 OT losses) placed in the
Atlantic division of the Eastern conference. -/
def cleanEntry : RawEntry where
  teamName := some (.obj (some (.str "Boston Bruins")))
  teamAbbrev := some (.obj (some (.str "BOS")))
  wins := some (.num 20)
  losses := some (.num 10)
  otLosses := some (.num 2)
  points := some (.num 42)
  gamesPlayed := some (.num 32)
  regulationWins := some (.num 15)
  divisionName := some "Atlantic"
  conferenceName := some "Eastern"

/-- A snapshot of 32 copies of `cleanEntry`: structurally valid everywhere,
but with all 32 teams in one division and one conference. -/
def lopsidedSnapshot : RawPayload :=
  ⟨some (List.replicate 32 cleanEntry)⟩

/-- `cleanEntry` with the team name given as a plain string instead of a
name object. -/
def stringNameEntry : RawEntry :=
  { cleanEntry with teamName := some (.str "Boston Bruins") }

/-- The condition under which the nested name check accepts a `default`
value: present, truthy, and a string (i.e. a non-empty string). -/
def defaultOk : Option JsPrim → Bool
  | some v => v.truthy && v.isString
  | none => false

/-- `cleanEntry` with the team name given as an object whose `default`
property is missing. -/
def badNameEntry : RawEntry :=
  { cleanEntry with teamName := some (.obj none) }

/-- The typed counterpart of `cleanEntry`. -/
def cleanTypedEntry : NHLStandingEntry where
  teamName := "Boston Bruins"
  teamAbbrev := "BOS"
  wins := 20
  losses := 10
  otLosses := 2
  points := 42
  gamesPlayed := 32
  regulationWins := 15
  regulationPlusOtWins := 18
  divisionName := "Atlantic"
  conferenceName := "Eastern"

/-- A 32-entry typed response (all copies of `cleanTypedEntry`). -/
def raw32 : NHLApiResponse := ⟨List.replicate 32 cleanTypedEntry⟩

/-- The `lastError` value after the retry loop has consumed the given
attempts, starting from the accumulated value `acc`. -/
def lastErrorAfter : List FetchOutcome → Option String → Option String
  | [], acc => acc
  | a :: rest, acc =>
    lastErrorAfter rest (match attemptResult a with | .error m => some m | .ok _ => acc)

/-- The projection of a team onto its division, division rank and the three
ranking keys; invariant under the wild-card and conference-rank phases. -/
def divView (t : Team) : String × ℕ × ℚ × ℚ × ℚ :=
  (t.division, t.divisionRank, t.pointPercentage, t.gamesPlayed, t.regulationWins)

/-- The classifier composition the claims quantify over:
`identifyDivisionLeaders`, then `identifyWildCards`, then
`calculateConferenceRanks`. -/
def classify (teams : List Team) : List Team :=
  calculateConferenceRanks (identifyWildCards (identifyDivisionLeaders teams))

/-- A fully ranked four-team division fixture: ids 1..4 with descending
point percentages, all in the Atlantic division of the Eastern conference. -/
def divisionFixture : List Team :=
  [{ baseTeam with id := 1, pointPercentage := 8 },
   { baseTeam with id := 2, pointPercentage := 7 },
   { baseTeam with id := 3, pointPercentage := 6 },
   { baseTeam with id := 4, pointPercentage := 5 }]

/-! ## Projector lemmas -/

/-- Closed form of `calculatePlayoffStats`: the four arithmetic fields are
branch-independent, and in the competing branch the remaining points are
provably positive, so the required percentage is always computed there. -/
lemma calculatePlayoffStats_def (team : Team) (th : ℚ) :
    calculatePlayoffStats team th =
      { remainingGames := max 0 (82 - team.gamesPlayed)
        remainingPoints := max 0 (82 - team.gamesPlayed) * 2
        maxPossiblePoints := team.points + max 0 (82 - team.gamesPlayed) * 2
        pointsGap := th - team.points
        requiredPointsPercentage :=
          if team.points ≥ th then none
          else if team.points + max 0 (82 - team.gamesPlayed) * 2 < th then none
          else some ((th - team.points) / (max 0 (82 - team.gamesPlayed) * 2) * 100)
        playoffStatus :=
          if team.points ≥ th then .clinched
          else if team.points + max 0 (82 - team.gamesPlayed) * 2 < th then .eliminated
          else .competing } := by
  simp only [calculatePlayoffStats, TOTAL_SEASON_GAMES, POINTS_PER_GAME]
  split_ifs with h1 h2 h3
  · rfl
  · rfl
  · rfl
  · exfalso
    push_neg at h1 h2 h3
    have : (0 : ℚ) < max 0 (82 - team.gamesPlayed) * 2 := by linarith
    linarith

/-- C2: for every team and threshold, `calculatePlayoffStats` returns
`remainingGames = max 0 (82 − gamesPlayed)`, `remainingPoints =
remainingGames × 2`, `maxPossiblePoints = points + remainingPoints`,
`pointsGap = threshold − points`, status clinched / eliminated / competing
in that order, with the required points percentage computed exactly in the
competing case; and the three concrete projector examples hold. -/
theorem c2_calculatePlayoffStats_spec :
    (∀ (team : Team) (threshold : ℚ),
      (calculatePlayoffStats team threshold).remainingGames = max 0 (82 - team.gamesPlayed)
      ∧ (calculatePlayoffStats team threshold).remainingPoints
          = max 0 (82 - team.gamesPlayed) * 2
      ∧ (calculatePlayoffStats team threshold).maxPossiblePoints
          = team.points + max 0 (82 - team.gamesPlayed) * 2
      ∧ (calculatePlayoffStats team threshold).pointsGap = threshold - team.points
      ∧ (calculatePlayoffStats team threshold).playoffStatus
          = (if team.points ≥ threshold then .clinched
             else if team.points + max 0 (82 - team.gamesPlayed) * 2 < threshold then .eliminated
             else .competing)
      ∧ (calculatePlayoffStats team threshold).requiredPointsPercentage
          = (if team.points ≥ threshold then none
             else if team.points + max 0 (82 - team.gamesPlayed) * 2 < threshold then none
             else some ((threshold - team.points) / (max 0 (82 - team.gamesPlayed) * 2) * 100)))
    ∧ calculatePlayoffStats (projTeam 95 70) 95 = ⟨12, 24, 119, 0, none, .clinched⟩
    ∧ calculatePlayoffStats (projTeam 60 75) 95 = ⟨7, 14, 74, 35, none, .eliminated⟩
    ∧ calculatePlayoffStats (projTeam 80 70) 95 = ⟨12, 24, 104, 15, some (125/2), .competing⟩ := by
  refine ⟨fun team threshold => ?_, ?_, ?_, ?_⟩
  · rw [calculatePlayoffStats_def]
    exact ⟨rfl, rfl, rfl, rfl, rfl, rfl⟩
  · rw [calculatePlayoffStats_def]
    simp only [projTeam, baseTeam, PlayoffCalculations.mk.injEq]
    norm_num [max_def]
  · rw [calculatePlayoffStats_def]
    simp only [projTeam, baseTeam, PlayoffCalculations.mk.injEq]
    norm_num [max_def]
  · rw [calculatePlayoffStats_def]
    simp only [projTeam, baseTeam, PlayoffCalculations.mk.injEq]
    norm_num [max_def]

/-- C7: the competing branch always has strictly positive remaining points
(no division by zero), and the required points percentage is present
exactly when the status is competing. -/
theorem c7_competing_requires_remaining_points :
    ∀ (team : Team) (threshold : ℚ),
      ((calculatePlayoffStats team threshold).playoffStatus = .competing →
        (calculatePlayoffStats team threshold).remainingPoints > 0)
      ∧ ((calculatePlayoffStats team threshold).requiredPointsPercentage ≠ none
          ↔ (calculatePlayoffStats team threshold).playoffStatus = .competing) := by
  intro team threshold
  rw [calculatePlayoffStats_def]
  by_cases h1 : team.points ≥ threshold
  · simp [h1]
  · by_cases h2 : team.points + max 0 (82 - team.gamesPlayed) * 2 < threshold
    · simp [h1, h2]
    · have hpos : (0 : ℚ) < max 0 (82 - team.gamesPlayed) * 2 := by
        push_neg at h1 h2
        linarith
      simp only [if_neg h1, if_neg h2]
      exact ⟨fun _ => hpos, by simp⟩

/-- C7 witness: a concrete competing team (80 points, 70 games, threshold
95) has positive remaining points and a present required percentage. -/
theorem c7_witness :
    (calculatePlayoffStats (projTeam 80 70) 95).remainingPoints > 0
    ∧ (calculatePlayoffStats (projTeam 80 70) 95).requiredPointsPercentage ≠ none := by
  have hcompeting : (calculatePlayoffStats (projTeam 80 70) 95).playoffStatus = .competing := by
    rw [calculatePlayoffStats_def]
    norm_num [projTeam, baseTeam, max_def]
  exact ⟨(c7_competing_requires_remaining_points (projTeam 80 70) 95).1 hcompeting,
    (c7_competing_requires_remaining_points (projTeam 80 70) 95).2.mpr hcompeting⟩

/-! ## Ranking-engine lemmas -/

/-- Evaluation rule for `Math.round` at a concrete value. -/
lemma jsRound_eq {q : ℚ} {z : ℤ} (h1 : (z : ℚ) ≤ q + 1 / 2) (h2 : q + 1 / 2 < z + 1) :
    jsRound q = z := by
  unfold jsRound
  rw [Int.floor_eq_iff]
  exact ⟨h1, by exact_mod_cast h2⟩

/-- Evaluation rule for `calculatePointPercentage` at a concrete value with
nonzero games played. -/
lemma calculatePointPercentage_eq {points gamesPlayed : ℚ} (h : gamesPlayed ≠ 0) :
    calculatePointPercentage points gamesPlayed
      = (jsRound (points / (gamesPlayed * 2) * 1000) : ℚ) / 1000 := by
  simp only [calculatePointPercentage, h, if_false]

/-- C5: `calculatePointPercentage` returns 0 for 0 games played, matches
the four concrete examples, always yields a multiple of 1/1000 (three
decimal places), and stays within [0, 1] on valid inputs. -/
theorem c5_calculatePointPercentage_spec :
    calculatePointPercentage 50 40 = 625/1000
    ∧ calculatePointPercentage 0 0 = 0
    ∧ calculatePointPercentage 33 40 = 413/1000
    ∧ calculatePointPercentage 164 82 = 1
    ∧ (∀ points gamesPlayed : ℚ, ∃ n : ℤ,
        calculatePointPercentage points gamesPlayed * 1000 = n)
    ∧ (∀ points gamesPlayed : ℚ, 0 ≤ points → points ≤ gamesPlayed * 2 →
        0 ≤ calculatePointPercentage points gamesPlayed
          ∧ calculatePointPercentage points gamesPlayed ≤ 1) := by
  refine ⟨?_, by simp [calculatePointPercentage], ?_, ?_, ?_, ?_⟩
  · rw [calculatePointPercentage_eq (by norm_num)]
    rw [show (50 : ℚ) / (40 * 2) * 1000 = 625 by norm_num]
    rw [jsRound_eq (z := 625) (by norm_num) (by norm_num)]
    norm_num
  · rw [calculatePointPercentage_eq (by norm_num)]
    rw [show (33 : ℚ) / (40 * 2) * 1000 = 825 / 2 by norm_num]
    rw [jsRound_eq (z := 413) (by norm_num) (by norm_num)]
    norm_num
  · rw [calculatePointPercentage_eq (by norm_num)]
    rw [show (164 : ℚ) / (82 * 2) * 1000 = 1000 by norm_num]
    rw [jsRound_eq (z := 1000) (by norm_num) (by norm_num)]
    norm_num
  · intro points gamesPlayed
    unfold calculatePointPercentage
    split_ifs with h
    · exact ⟨0, by norm_num⟩
    · exact ⟨jsRound (points / (gamesPlayed * 2) * 1000), by field_simp⟩
  · intro points gamesPlayed hp hle
    unfold calculatePointPercentage
    split_ifs with h
    · norm_num
    · have hgp : 0 < gamesPlayed := by
        rcases lt_trichotomy gamesPlayed 0 with hneg | hzero | hpos
        · linarith
        · exact absurd hzero h
        · exact hpos

      have hx0 : 0 ≤ points / (gamesPlayed * 2) := by positivity
      have hx1 : points / (gamesPlayed * 2) ≤ 1 := by
        rw [div_le_one (by linarith)]
        linarith
      have hround0 : (0 : ℤ) ≤ jsRound (points / (gamesPlayed * 2) * 1000) := by
        unfold jsRound
        exact Int.le_floor.mpr (by push_cast; linarith)
      have hround1 : jsRound (points / (gamesPlayed * 2) * 1000) ≤ 1000 := by
        unfold jsRound
        have := Int.floor_le (points / (gamesPlayed * 2) * 1000 + 1 / 2)
        have hb : points / (gamesPlayed * 2) * 1000 + 1 / 2 ≤ 1000 + (1 : ℚ) / 2 := by
          nlinarith
        have : (jsRound (points / (gamesPlayed * 2) * 1000) : ℚ) ≤ 1000 + 1 / 2 := by
          unfold jsRound
          linarith [Int.floor_le (points / (gamesPlayed * 2) * 1000 + 1 / 2)]
        have hlt : (jsRound (points / (gamesPlayed * 2) * 1000) : ℚ) < 1001 := by linarith
        exact_mod_cast Int.lt_add_one_iff.mp (by exact_mod_cast hlt)
      constructor
      · positivity
      · rw [div_le_one (by norm_num)]
        exact_mod_cast hround1

/-- C5 witness: the [0, 1] bound instantiated at the valid input
(50 points, 40 games played). -/
theorem c5_witness :
    (0 : ℚ) ≤ 50 ∧ (50 : ℚ) ≤ 40 * 2
    ∧ 0 ≤ calculatePointPercentage 50 40 ∧ calculatePointPercentage 50 40 ≤ 1 :=
  ⟨by norm_num, by norm_num,
    (c5_calculatePointPercentage_spec.2.2.2.2.2 50 40 (by norm_num) (by norm_num)).1,
    (c5_calculatePointPercentage_spec.2.2.2.2.2 50 40 (by norm_num) (by norm_num)).2⟩

/-- The comparator's non-strict relation coincides with the spec's ranking
order. -/
lemma teamLE_iff (a b : Team) : teamLE a b = true ↔ ranksAtLeast a b := by
  unfold teamLE
  rw [decide_eq_true_iff]
  unfold compareTeams applyTiebreaker ranksAtLeast
  split_ifs with h1 h2 h3 h4 h5 h6
  · exact iff_of_true (by norm_num) (Or.inl h1)
  · refine iff_of_false (by norm_num) ?_
    rintro (h | ⟨he, -⟩) <;> linarith
  · have he : a.pointPercentage = b.pointPercentage := le_antisymm (not_lt.mp h1) (not_lt.mp h2)
    exact iff_of_true (by norm_num) (Or.inr ⟨he, Or.inl h3⟩)
  · refine iff_of_false (by norm_num) ?_
    rintro (h | ⟨-, g | ⟨ge, -⟩⟩) <;> linarith
  · have he : a.pointPercentage = b.pointPercentage := le_antisymm (not_lt.mp h1) (not_lt.mp h2)
    have hg : a.gamesPlayed = b.gamesPlayed := le_antisymm (not_lt.mp h4) (not_lt.mp h3)
    exact iff_of_true (by norm_num) (Or.inr ⟨he, Or.inr ⟨hg, Or.inl h5⟩⟩)
  · refine iff_of_false (by norm_num) ?_
    rintro (h | ⟨-, g | ⟨-, r | re⟩⟩) <;> linarith
  · have he : a.pointPercentage = b.pointPercentage := le_antisymm (not_lt.mp h1) (not_lt.mp h2)
    have hg : a.gamesPlayed = b.gamesPlayed := le_antisymm (not_lt.mp h4) (not_lt.mp h3)
    have hr : a.regulationWins = b.regulationWins := le_antisymm (not_lt.mp h5) (not_lt.mp h6)
    exact iff_of_true (by norm_num) (Or.inr ⟨he, Or.inr ⟨hg, Or.inr hr⟩⟩)

/-- The comparator relation is transitive. -/
lemma teamLE_trans : ∀ (a b c : Team), teamLE a b → teamLE b c → teamLE a c := by
  intro a b c hab hbc
  rw [teamLE_iff] at hab hbc ⊢
  rcases hab with h1 | ⟨e1, h1⟩
  · rcases hbc with h2 | ⟨e2, -⟩
    · exact Or.inl (h2.trans h1)
    · exact Or.inl (by rw [← e2]; exact h1)
  · rcases hbc with h2 | ⟨e2, h2⟩
    · exact Or.inl (by rw [e1]; exact h2)
    · refine Or.inr ⟨e1.trans e2, ?_⟩
      rcases h1 with g1 | ⟨ge1, r1⟩
      · rcases h2 with g2 | ⟨ge2, -⟩
        · exact Or.inl (g1.trans g2)
        · exact Or.inl (by rw [← ge2]; exact g1)
      · rcases h2 with g2 | ⟨ge2, r2⟩
        · exact Or.inl (by rw [ge1]; exact g2)
        · refine Or.inr ⟨ge1.trans ge2, ?_⟩
          rcases r1 with r1 | r1 <;> rcases r2 with r2 | r2
          · exact Or.inl (r2.trans r1)
          · exact Or.inl (by rw [← r2]; exact r1)
          · exact Or.inl (by rw [r1]; exact r2)
          · exact Or.inr (r1.trans r2)

/-- The comparator relation is total. -/
lemma teamLE_total : ∀ (a b : Team), teamLE a b || teamLE b a := by
  intro a b
  simp only [Bool.or_eq_true, teamLE_iff]
  rcases lt_trichotomy a.pointPercentage b.pointPercentage with h | h | h
  · exact Or.inr (Or.inl h)
  · rcases lt_trichotomy a.gamesPlayed b.gamesPlayed with g | g | g
    · exact Or.inl (Or.inr ⟨h, Or.inl g⟩)
    · rcases lt_trichotomy a.regulationWins b.regulationWins with r | r | r
      · exact Or.inr (Or.inr ⟨h.symm, Or.inr ⟨g.symm, Or.inl r⟩⟩)
      · exact Or.inl (Or.inr ⟨h, Or.inr ⟨g, Or.inr r⟩⟩)
      · exact Or.inl (Or.inr ⟨h, Or.inr ⟨g, Or.inl r⟩⟩)
    · exact Or.inr (Or.inr ⟨h.symm, Or.inl g⟩)
  · exact Or.inl (Or.inl h)

/-- A true tie satisfies the comparator relation in both directions. -/
lemma tiedTeams_teamLE {a b : Team} (h : tiedTeams a b) : teamLE a b = true :=
  (teamLE_iff a b).mpr (Or.inr ⟨h.1, Or.inr ⟨h.2.1, Or.inr h.2.2⟩⟩)

/-- The sorted output is pairwise ordered by the spec's ranking order. -/
lemma sortTeamsByStandings_pairwise (teams : List Team) :
    (sortTeamsByStandings teams).Pairwise ranksAtLeast :=
  (List.sorted_mergeSort teamLE_trans teamLE_total teams).imp
    (fun hab => (teamLE_iff _ _).mp hab)

/-- The sorted output is a permutation of the input. -/
lemma sortTeamsByStandings_perm (teams : List Team) :
    sortTeamsByStandings teams ~ teams :=
  List.mergeSort_perm teams teamLE

/-- C3: `sortTeamsByStandings` permutes its input into an order where
strictly higher point percentage comes first, ties are broken by fewer
games played and then by more regulation wins, and teams equal on all
three keys keep their relative input order (stable sort, no further
tiebreaker). -/
theorem c3_sortTeamsByStandings_spec :
    ∀ teams : List Team,
      sortTeamsByStandings teams ~ teams
      ∧ (sortTeamsByStandings teams).Pairwise ranksAtLeast
      ∧ (∀ a b : Team, tiedTeams a b → [a, b] <+ teams →
          [a, b] <+ sortTeamsByStandings teams) := by
  intro teams
  refine ⟨sortTeamsByStandings_perm teams, sortTeamsByStandings_pairwise teams, ?_⟩
  intro a b htied hsub
  exact List.pair_sublist_mergeSort teamLE_trans teamLE_total (tiedTeams_teamLE htied) hsub

/-- C3 witness: two fully tied teams keep their input order after
sorting. -/
theorem c3_witness :
    [baseTeam, { baseTeam with id := 2 }]
      <+ sortTeamsByStandings [baseTeam, { baseTeam with id := 2 }] :=
  (c3_sortTeamsByStandings_spec [baseTeam, { baseTeam with id := 2 }]).2.2
    baseTeam { baseTeam with id := 2 } ⟨rfl, rfl, rfl⟩ (List.Sublist.refl _)

/-! ## Grouping lemmas -/

lemma mem_keysInOrder : ∀ (l : List String) (a : String), a ∈ keysInOrder l ↔ a ∈ l := by
  intro l
  induction l using keysInOrder.induct with
  | case1 => simp [keysInOrder]
  | case2 k ks ih =>
    intro a
    rw [keysInOrder]
    by_cases hak : a = k
    · subst hak
      simp
    · simp only [List.mem_cons, hak, false_or, ih, List.mem_filter]
      simp [hak]

lemma nodup_keysInOrder : ∀ l : List String, (keysInOrder l).Nodup := by
  intro l
  induction l using keysInOrder.induct with
  | case1 => simp [keysInOrder]
  | case2 k ks ih =>
    rw [keysInOrder]
    refine List.Nodup.cons ?_ ih
    intro hmem
    rcases (List.mem_filter.mp ((mem_keysInOrder _ _).mp hmem)).2 with h
    simp at h

lemma filter_flatMap {α β : Type} (K : List α) (g : α → List β) (p : β → Bool) :
    (K.flatMap g).filter p = K.flatMap (fun k => (g k).filter p) := by
  induction K with
  | nil => simp
  | cons k K ih => simp [List.filter_append, ih]

lemma flatMap_perm_congr {α β : Type} (K : List α) (g1 g2 : α → List β)
    (h : ∀ k ∈ K, g1 k ~ g2 k) : K.flatMap g1 ~ K.flatMap g2 := by
  induction K with
  | nil => simp
  | cons k K ih =>
    simp only [List.flatMap_cons]
    exact (h k (by simp)).append (ih (fun k hk => h k (by simp [hk])))

lemma flatMap_single {β : Type} (K : List String) (hK : K.Nodup) (g : String → List β)
    (k0 : String) (hz : ∀ k ∈ K, k ≠ k0 → g k = []) :
    K.flatMap g = if k0 ∈ K then g k0 else [] := by
  induction K with
  | nil => simp
  | cons k K ih =>
    rcases List.nodup_cons.mp hK with ⟨hknotin, hKnodup⟩
    by_cases hk : k = k0
    · subst hk
      have hrest : K.flatMap g = [] := by
        apply List.flatMap_eq_nil_iff.mpr
        intro k' hk'
        exact hz k' (by simp [hk']) (fun hkk => hknotin (hkk ▸ hk'))
      simp [hrest]
    · have hgk : g k = [] := hz k (by simp) hk
      have : k0 ∈ k :: K ↔ k0 ∈ K := by
        constructor
        · intro hmem
          rcases List.mem_cons.mp hmem with hmem | hmem
          · exact absurd hmem.symm hk
          · exact hmem
        · exact fun hmem => List.mem_cons_of_mem _ hmem
      rw [List.flatMap_cons, hgk, List.nil_append,
        ih hKnodup (fun k' h' hne => hz k' (by simp [h']) hne), if_congr this rfl rfl]

/-- The concatenation of a list's key-fibers, keys taken in first-occurrence
order, is a permutation of the list. -/
lemma flatMap_fibers_perm {α : Type} (key : α → String) :
    ∀ (n : ℕ) (ts : List α), ts.length ≤ n →
      ((keysInOrder (ts.map key)).flatMap (fun k => ts.filter (fun t => key t = k))) ~ ts := by
  intro n
  induction n with
  | zero =>
    intro ts hlen
    rw [List.length_eq_zero.mp (Nat.le_zero.mp hlen)]
    simp [keysInOrder]
  | succ n ih =>
    intro ts hlen
    match ts with
    | [] => simp [keysInOrder]
    | t0 :: rest =>
      set k0 := key t0 with hk0
      have hmapcons : (t0 :: rest).map key = k0 :: rest.map key := rfl
      have hkeys : keysInOrder ((t0 :: rest).map key)
          = k0 :: keysInOrder ((rest.filter (fun t => key t ≠ k0)).map key) := by
        rw [hmapcons, keysInOrder]
        congr 1
        congr 1
        rw [List.filter_map]
        rfl
      rw [hkeys, List.flatMap_cons]
      have hfiber0 : (t0 :: rest).filter (fun t => key t = k0)
          = t0 :: rest.filter (fun t => key t = k0) := by
        rw [List.filter_cons_of_pos (by simp)]
      have hchunks : (keysInOrder ((rest.filter (fun t => key t ≠ k0)).map key)).flatMap
            (fun k => (t0 :: rest).filter (fun t => key t = k))
          = (keysInOrder ((rest.filter (fun t => key t ≠ k0)).map key)).flatMap
            (fun k => (rest.filter (fun t => key t ≠ k0)).filter (fun t => key t = k)) := by
        rw [List.flatMap_def, List.flatMap_def]
        congr 1
        apply List.map_congr_left
        intro k hkmem
        have hkne : k ≠ k0 := by
          rcases List.mem_map.mp ((mem_keysInOrder _ _).mp hkmem) with ⟨t, htmem, rfl⟩
          have := (List.mem_filter.mp htmem).2
          simpa using this
        rw [List.filter_cons_of_neg (by
            simp only [decide_eq_true_eq, ← hk0]
            exact fun h => hkne h.symm),
          List.filter_filter]
        apply List.filter_congr
        intro t _
        by_cases hkt : key t = k
        · simp [hkt, hkne]
        · simp [hkt]
      rw [hchunks, hfiber0]
      have hlen' : (rest.filter (fun t => key t ≠ k0)).length ≤ n :=
        le_trans (List.length_filter_le _ _) (Nat.le_of_succ_le_succ hlen)
      have hperm := ih (rest.filter (fun t => key t ≠ k0)) hlen'
      calc (t0 :: rest.filter (fun t => key t = k0))
            ++ (keysInOrder ((rest.filter (fun t => key t ≠ k0)).map key)).flatMap
              (fun k => (rest.filter (fun t => key t ≠ k0)).filter (fun t => key t = k))
          ~ (t0 :: rest.filter (fun t => key t = k0)) ++ rest.filter (fun t => key t ≠ k0) :=
            List.Perm.append_left _ hperm
        _ = t0 :: (rest.filter (fun t => key t = k0) ++ rest.filter (fun t => key t ≠ k0)) := rfl
        _ ~ t0 :: rest := by
            refine List.Perm.cons t0 ?_
            have := List.filter_append_perm (fun t => key t = k0) rest
            have hcong : rest.filter (fun t => !(key t = k0 : Bool))
                = rest.filter (fun t => key t ≠ k0) := by
              apply List.filter_congr
              intro t _
              simp
            rw [hcong] at this
            exact this

/-- Fiber characterization of `groupProcess`: filtering the output on a key
recovers the processed fiber of that key, provided `f` keeps each group on
its own key. -/
lemma groupProcess_filter (key : Team → String) (f : List Team → List Team) (ts : List Team)
    (Hf : ∀ k, ∀ u ∈ f (ts.filter (fun t => key t = k)), key u = k) (k0 : String) :
    (groupProcess key f ts).filter (fun t => key t = k0) =
      if k0 ∈ ts.map key then f (ts.filter (fun t => key t = k0)) else [] := by
  unfold groupProcess
  rw [filter_flatMap]
  rw [flatMap_single _ (nodup_keysInOrder _) _ k0 ?_]
  · by_cases h : k0 ∈ ts.map key
    · rw [if_pos ((mem_keysInOrder _ _).mpr h), if_pos h]
      apply List.filter_eq_self.mpr
      intro u hu
      simpa using Hf k0 u hu
    · rw [if_neg (fun hc => h ((mem_keysInOrder _ _).mp hc)), if_neg h]
  · intro k _ hne
    apply List.filter_eq_nil_iff.mpr
    intro u hu
    simp [Hf k u hu, hne]

/-- Permutation transport through `groupProcess` along any projection that
each per-group step preserves as a multiset. -/
lemma groupProcess_map_perm {β : Type} (key : Team → String) (f : List Team → List Team)
    (ts : List Team) (h : Team → β)
    (Hf : ∀ k, (f (ts.filter (fun t => key t = k))).map h
        ~ (ts.filter (fun t => key t = k)).map h) :
    (groupProcess key f ts).map h ~ ts.map h := by
  unfold groupProcess
  rw [List.map_flatMap]
  calc (keysInOrder (ts.map key)).flatMap
        (fun k => (f (ts.filter (fun t => key t = k))).map h)
      ~ (keysInOrder (ts.map key)).flatMap
        (fun k => (ts.filter (fun t => key t = k)).map h) :=
        flatMap_perm_congr _ _ _ (fun k _ => Hf k)
    _ = ((keysInOrder (ts.map key)).flatMap (fun k => ts.filter (fun t => key t = k))).map h :=
        (List.map_flatMap _ _ _).symm
    _ ~ ts.map h := (flatMap_fibers_perm key ts.length ts le_rfl).map h

/-! ## Rank-marking lemmas -/

lemma markDivisionRanks_length (l : List Team) (i : ℕ) :
    (markDivisionRanks l i).length = l.length := by
  induction l generalizing i with
  | nil => rfl
  | cons t rest ih => simp [markDivisionRanks, ih]

lemma markDivisionRanks_getElem? (l : List Team) (i j : ℕ) :
    (markDivisionRanks l i)[j]? = l[j]?.map
      (fun t => { t with isDivisionLeader := decide (i + j < 3), divisionRank := i + j + 1 }) := by
  induction l generalizing i j with
  | nil => simp [markDivisionRanks]
  | cons t rest ih =>
    match j with
    | 0 => simp [markDivisionRanks]
    | j + 1 =>
      simp only [markDivisionRanks, List.getElem?_cons_succ, ih]
      have : i + 1 + j = i + (j + 1) := by omega
      rw [this]

lemma markDivisionRanks_map {β : Type} (l : List Team) (i : ℕ) (h : Team → β)
    (hinv : ∀ (t : Team) (b : Bool) (r : ℕ),
      h { t with isDivisionLeader := b, divisionRank := r } = h t) :
    (markDivisionRanks l i).map h = l.map h := by
  induction l generalizing i with
  | nil => rfl
  | cons t rest ih => simp [markDivisionRanks, hinv, ih]

lemma markDivisionRanks_ranks (l : List Team) (i : ℕ) :
    (markDivisionRanks l i).map (fun t => t.divisionRank) = List.range' (i + 1) l.length := by
  induction l generalizing i with
  | nil => rfl
  | cons t rest ih =>
    simp only [markDivisionRanks, List.map_cons, List.length_cons, List.range'_succ, ih]

lemma mem_markDivisionRanks {l : List Team} {i : ℕ} {u : Team} (hu : u ∈ markDivisionRanks l i) :
    ∃ t ∈ l, ∃ j : ℕ,
      u = { t with isDivisionLeader := decide (j < 3), divisionRank := j + 1 } := by
  rcases List.mem_iff_getElem?.mp hu with ⟨n, hn⟩
  rw [markDivisionRanks_getElem?] at hn
  rcases Option.map_eq_some'.mp hn with ⟨t, htn, rfl⟩
  exact ⟨t, List.mem_iff_getElem?.mpr ⟨n, htn⟩, i + n, rfl⟩

lemma markConferenceRanks_length (l : List Team) (i : ℕ) :
    (markConferenceRanks l i).length = l.length := by
  induction l generalizing i with
  | nil => rfl
  | cons t rest ih => simp [markConferenceRanks, ih]

lemma markConferenceRanks_getElem? (l : List Team) (i j : ℕ) :
    (markConferenceRanks l i)[j]? = l[j]?.map (fun t => { t with conferenceRank := i + j + 1 }) := by
  induction l generalizing i j with
  | nil => simp [markConferenceRanks]
  | cons t rest ih =>
    match j with
    | 0 => simp [markConferenceRanks]
    | j + 1 =>
      simp only [markConferenceRanks, List.getElem?_cons_succ, ih]
      have : i + 1 + j = i + (j + 1) := by omega
      rw [this]

lemma markConferenceRanks_map {β : Type} (l : List Team) (i : ℕ) (h : Team → β)
    (hinv : ∀ (t : Team) (r : ℕ), h { t with conferenceRank := r } = h t) :
    (markConferenceRanks l i).map h = l.map h := by
  induction l generalizing i with
  | nil => rfl
  | cons t rest ih => simp [markConferenceRanks, hinv, ih]

lemma markConferenceRanks_ranks (l : List Team) (i : ℕ) :
    (markConferenceRanks l i).map (fun t => t.conferenceRank) = List.range' (i + 1) l.length := by
  induction l generalizing i with
  | nil => rfl
  | cons t rest ih =>
    simp only [markConferenceRanks, List.map_cons, List.length_cons, List.range'_succ, ih]

lemma mem_markConferenceRanks {l : List Team} {i : ℕ} {u : Team}
    (hu : u ∈ markConferenceRanks l i) :
    ∃ t ∈ l, ∃ j : ℕ, u = { t with conferenceRank := j + 1 } := by
  rcases List.mem_iff_getElem?.mp hu with ⟨n, hn⟩
  rw [markConferenceRanks_getElem?] at hn
  rcases Option.map_eq_some'.mp hn with ⟨t, htn, rfl⟩
  exact ⟨t, List.mem_iff_getElem?.mpr ⟨n, htn⟩, i + n, rfl⟩

/-! ## Phase lemmas for the classifier -/

lemma identifyDivisionLeaders_filter (ts : List Team) (d : String) :
    (identifyDivisionLeaders ts).filter (fun t => t.division = d) =
      if d ∈ ts.map (fun t => t.division) then
        markDivisionRanks (sortTeamsByStandings (ts.filter (fun t => t.division = d))) 0
      else [] := by
  unfold identifyDivisionLeaders
  apply groupProcess_filter
  intro k u hu
  rcases mem_markDivisionRanks hu with ⟨t, ht, j, rfl⟩
  have ht' : t ∈ ts.filter (fun t => t.division = k) := (sortTeamsByStandings_perm _).subset ht
  have := (List.mem_filter.mp ht').2
  simpa using this

lemma mem_identifyDivisionLeaders {ts : List Team} {u : Team}
    (hu : u ∈ identifyDivisionLeaders ts) :
    ∃ t ∈ ts, ∃ j : ℕ,
      u = { t with isDivisionLeader := decide (j < 3), divisionRank := j + 1 } := by
  unfold identifyDivisionLeaders groupProcess at hu
  rcases List.mem_flatMap.mp hu with ⟨k, -, hu⟩
  rcases mem_markDivisionRanks hu with ⟨t, ht, j, rfl⟩
  have ht' : t ∈ ts.filter (fun t => t.division = k) := (sortTeamsByStandings_perm _).subset ht
  exact ⟨t, (List.mem_filter.mp ht').1, j, rfl⟩

lemma identifyDivisionLeaders_map_perm {β : Type} (ts : List Team) (h : Team → β)
    (hinv : ∀ (t : Team) (b : Bool) (r : ℕ),
      h { t with isDivisionLeader := b, divisionRank := r } = h t) :
    (identifyDivisionLeaders ts).map h ~ ts.map h := by
  unfold identifyDivisionLeaders
  apply groupProcess_map_perm
  intro k
  rw [markDivisionRanks_map _ _ _ hinv]
  exact (sortTeamsByStandings_perm _).map h

lemma identifyWildCards_filter (ts : List Team) (c : String) :
    (identifyWildCards ts).filter (fun t => t.conference = c) =
      if c ∈ ts.map (fun t => t.conference) then
        (ts.filter (fun t => t.conference = c)).map
          (fun t =>
            { t with isWildCard := decide (t.id ∈ wildCardIds (nonLeadersOfConference ts c)) })
      else [] := by
  unfold identifyWildCards
  apply groupProcess_filter
  intro k u hu
  rcases List.mem_map.mp hu with ⟨t, ht, rfl⟩
  have := (List.mem_filter.mp ht).2
  simpa using this

lemma mem_identifyWildCards {ts : List Team} {u : Team} (hu : u ∈ identifyWildCards ts) :
    ∃ t ∈ ts,
      u = { t with
        isWildCard := decide (t.id ∈ wildCardIds (nonLeadersOfConference ts t.conference)) } := by
  unfold identifyWildCards groupProcess at hu
  rcases List.mem_flatMap.mp hu with ⟨k, -, hu⟩
  rcases List.mem_map.mp hu with ⟨t, ht, rfl⟩
  rcases List.mem_filter.mp ht with ⟨htts, hconf⟩
  have hconf' : t.conference = k := by simpa using hconf
  refine ⟨t, htts, ?_⟩
  unfold nonLeadersOfConference
  rw [hconf']

lemma identifyWildCards_map_perm {β : Type} (ts : List Team) (h : Team → β)
    (hinv : ∀ (t : Team) (b : Bool), h { t with isWildCard := b } = h t) :
    (identifyWildCards ts).map h ~ ts.map h := by
  unfold identifyWildCards
  apply groupProcess_map_perm
  intro k
  rw [List.map_map]
  exact List.Perm.of_eq (List.map_congr_left (fun t _ => hinv t _))

lemma calculateConferenceRanks_filter (ts : List Team) (c : String) :
    (calculateConferenceRanks ts).filter (fun t => t.conference = c) =
      if c ∈ ts.map (fun t => t.conference) then
        markConferenceRanks (sortTeamsByStandings (ts.filter (fun t => t.conference = c))) 0
      else [] := by
  unfold calculateConferenceRanks
  apply groupProcess_filter
  intro k u hu
  rcases mem_markConferenceRanks hu with ⟨t, ht, j, rfl⟩
  have ht' : t ∈ ts.filter (fun t => t.conference = k) := (sortTeamsByStandings_perm _).subset ht
  have := (List.mem_filter.mp ht').2
  simpa using this

lemma mem_calculateConferenceRanks {ts : List Team} {u : Team}
    (hu : u ∈ calculateConferenceRanks ts) :
    ∃ t ∈ ts, ∃ j : ℕ, u = { t with conferenceRank := j + 1 } := by
  unfold calculateConferenceRanks groupProcess at hu
  rcases List.mem_flatMap.mp hu with ⟨k, -, hu⟩
  rcases mem_markConferenceRanks hu with ⟨t, ht, j, rfl⟩
  have ht' : t ∈ ts.filter (fun t => t.conference = k) := (sortTeamsByStandings_perm _).subset ht
  exact ⟨t, (List.mem_filter.mp ht').1, j, rfl⟩

lemma calculateConferenceRanks_map_perm {β : Type} (ts : List Team) (h : Team → β)
    (hinv : ∀ (t : Team) (r : ℕ), h { t with conferenceRank := r } = h t) :
    (calculateConferenceRanks ts).map h ~ ts.map h := by
  unfold calculateConferenceRanks
  apply groupProcess_map_perm
  intro k
  rw [markConferenceRanks_map _ _ _ hinv]
  exact (sortTeamsByStandings_perm _).map h

/-! ## Classifier correctness (C4) -/

lemma ranksAtLeast_congr {a b u v : Team}
    (hpa : u.pointPercentage = a.pointPercentage) (hga : u.gamesPlayed = a.gamesPlayed)
    (hra : u.regulationWins = a.regulationWins)
    (hpb : v.pointPercentage = b.pointPercentage) (hgb : v.gamesPlayed = b.gamesPlayed)
    (hrb : v.regulationWins = b.regulationWins)
    (h : ranksAtLeast u v) : ranksAtLeast a b := by
  unfold ranksAtLeast at h ⊢
  rw [← hpa, ← hga, ← hra, ← hpb, ← hgb, ← hrb]
  exact h

lemma markDivisionRanks_mem_rank {l : List Team} {u : Team} (hu : u ∈ markDivisionRanks l 0) :
    ∃ (m : ℕ) (hm : m < l.length),
      u = { l[m] with isDivisionLeader := decide (m < 3), divisionRank := m + 1 } := by
  rcases List.mem_iff_getElem?.mp hu with ⟨m, hm⟩
  rw [markDivisionRanks_getElem?] at hm
  rcases Option.map_eq_some'.mp hm with ⟨t, htm, hueq⟩
  rcases List.getElem?_eq_some_iff.mp htm with ⟨hlt, rfl⟩
  refine ⟨m, hlt, ?_⟩
  rw [← hueq]
  simp

lemma markConferenceRanks_mem_rank {l : List Team} {u : Team}
    (hu : u ∈ markConferenceRanks l 0) :
    ∃ (m : ℕ) (hm : m < l.length), u = { l[m] with conferenceRank := m + 1 } := by
  rcases List.mem_iff_getElem?.mp hu with ⟨m, hm⟩
  rw [markConferenceRanks_getElem?] at hm
  rcases Option.map_eq_some'.mp hm with ⟨t, htm, hueq⟩
  rcases List.getElem?_eq_some_iff.mp htm with ⟨hlt, rfl⟩
  refine ⟨m, hlt, ?_⟩
  rw [← hueq]
  simp

/-- The wild-card and conference-rank phases preserve the division view of
the team multiset. -/
lemma classify_divView_perm (ts : List Team) :
    (classify ts).map divView ~ (identifyDivisionLeaders ts).map divView := by
  unfold classify
  exact (calculateConferenceRanks_map_perm _ divView (fun t r => rfl)).trans
    (identifyWildCards_map_perm _ divView (fun t b => rfl))

/-- Division-fiber transfer: the division view of a division's teams after
full classification is a permutation of the view after the
division-leader phase. -/
lemma classify_filter_division_map (ts : List Team) (d : String) :
    ((classify ts).filter (fun t => t.division = d)).map divView
      ~ ((identifyDivisionLeaders ts).filter (fun t => t.division = d)).map divView := by
  have hv := (classify_divView_perm ts).filter (fun x => decide (x.1 = d))
  rw [List.filter_map, List.filter_map] at hv
  exact hv

/-- C4: after classification (division leaders, then wild cards, then
conference ranks), each division's division ranks are exactly 1..N assigned
in standing order, each conference's conference ranks are exactly 1..N
assigned in standing order, a team is a division leader iff its division
rank is at most 3, and a team is flagged wild card iff its id is among the
top 2 of its conference's sorted non-leaders. -/
theorem c4_classification_spec :
    ∀ ts : List Team,
      (∀ d : String,
        ((classify ts).filter (fun t => t.division = d)).map (fun t => t.divisionRank)
          ~ List.range' 1 ((classify ts).filter (fun t => t.division = d)).length)
      ∧ (∀ a ∈ classify ts, ∀ b ∈ classify ts, a.division = b.division →
          a.divisionRank < b.divisionRank → ranksAtLeast a b)
      ∧ (∀ c : String,
        ((classify ts).filter (fun t => t.conference = c)).map (fun t => t.conferenceRank)
          ~ List.range' 1 ((classify ts).filter (fun t => t.conference = c)).length)
      ∧ (∀ a ∈ classify ts, ∀ b ∈ classify ts, a.conference = b.conference →
          a.conferenceRank < b.conferenceRank → ranksAtLeast a b)
      ∧ (∀ t ∈ classify ts, t.isDivisionLeader = true ↔ t.divisionRank ≤ 3)
      ∧ (∀ t ∈ classify ts, t.isWildCard = true ↔
          t.id ∈ wildCardIds (nonLeadersOfConference (identifyDivisionLeaders ts) t.conference)) := by
  intro ts
  refine ⟨?_, ?_, ?_, ?_, ?_, ?_⟩
  · -- division ranks are 1..N
    intro d
    have hperm := classify_filter_division_map ts d
    have hranks : ((classify ts).filter (fun t => t.division = d)).map (fun t => t.divisionRank)
        ~ ((identifyDivisionLeaders ts).filter (fun t => t.division = d)).map
            (fun t => t.divisionRank) := by
      have h2 := hperm.map (fun x => x.2.1)
      rw [List.map_map, List.map_map] at h2
      exact h2
    have hlen : ((classify ts).filter (fun t => t.division = d)).length
        = ((identifyDivisionLeaders ts).filter (fun t => t.division = d)).length := by
      have h2 := hperm.length_eq
      simpa using h2
    by_cases hd : d ∈ ts.map (fun t => t.division)
    · rw [identifyDivisionLeaders_filter ts d, if_pos hd] at hranks hlen
      rw [markDivisionRanks_ranks] at hranks
      rw [markDivisionRanks_length] at hlen
      rw [hlen]
      simpa using hranks
    · rw [identifyDivisionLeaders_filter ts d, if_neg hd] at hranks
      have hnil : ((classify ts).filter (fun t => t.division = d)).map
          (fun t => t.divisionRank) = [] := by
        have := hranks
        simp only [List.map_nil] at this
        exact this.eq_nil
      rw [hnil]
      have hzero : ((classify ts).filter (fun t => t.division = d)).length = 0 := by
        have := congrArg List.length hnil
        simpa using this
      rw [hzero]
      simp
  · -- division ranks assigned in standing order
    intro a ha b hb hdiv hrank
    have ha' : a ∈ (classify ts).filter (fun t => t.division = a.division) :=
      List.mem_filter.mpr ⟨ha, by simp⟩
    have hb' : b ∈ (classify ts).filter (fun t => t.division = a.division) :=
      List.mem_filter.mpr ⟨hb, by simp [← hdiv]⟩
    have hva : divView a ∈ ((identifyDivisionLeaders ts).filter
        (fun t => t.division = a.division)).map divView :=
      (classify_filter_division_map ts a.division).mem_iff.mp
        (List.mem_map_of_mem divView ha')
    have hvb : divView b ∈ ((identifyDivisionLeaders ts).filter
        (fun t => t.division = a.division)).map divView :=
      (classify_filter_division_map ts a.division).mem_iff.mp
        (List.mem_map_of_mem divView hb')
    by_cases hd : a.division ∈ ts.map (fun t => t.division)
    · rw [identifyDivisionLeaders_filter ts a.division, if_pos hd] at hva hvb
      obtain ⟨u, hu, hua⟩ := List.mem_map.mp hva
      obtain ⟨v, hv, hvb2⟩ := List.mem_map.mp hvb
      obtain ⟨m, hmlt, rfl⟩ := markDivisionRanks_mem_rank hu
      obtain ⟨n, hnlt, rfl⟩ := markDivisionRanks_mem_rank hv
      simp only [divView, Prod.mk.injEq] at hua hvb2
      obtain ⟨-, hranka, hppa, hgpa, hrwa⟩ := hua
      obtain ⟨-, hrankb, hppb, hgpb, hrwb⟩ := hvb2
      have hmn : m < n := by omega
      have hpw := sortTeamsByStandings_pairwise (ts.filter (fun t => t.division = a.division))
      have hral := List.pairwise_iff_getElem.mp hpw m n hmlt hnlt hmn
      exact ranksAtLeast_congr hppa hgpa hrwa hppb hgpb hrwb hral
    · rw [identifyDivisionLeaders_filter ts a.division, if_neg hd] at hva
      simp at hva
  · -- conference ranks are 1..N
    intro c
    by_cases hc : c ∈ (identifyWildCards (identifyDivisionLeaders ts)).map
        (fun t => t.conference)
    · have hfilter : (classify ts).filter (fun t => t.conference = c)
          = markConferenceRanks (sortTeamsByStandings
              ((identifyWildCards (identifyDivisionLeaders ts)).filter
                (fun t => t.conference = c))) 0 := by
        rw [show classify ts
            = calculateConferenceRanks (identifyWildCards (identifyDivisionLeaders ts))
          from rfl]
        rw [calculateConferenceRanks_filter, if_pos hc]
      rw [hfilter, markConferenceRanks_ranks, markConferenceRanks_length]
    · rw [show classify ts
          = calculateConferenceRanks (identifyWildCards (identifyDivisionLeaders ts))
        from rfl]
      rw [calculateConferenceRanks_filter, if_neg hc]
      simp
  · -- conference ranks assigned in standing order
    intro a ha b hb hconf hrank
    have ha' : a ∈ (classify ts).filter (fun t => t.conference = a.conference) :=
      List.mem_filter.mpr ⟨ha, by simp⟩
    have hb' : b ∈ (classify ts).filter (fun t => t.conference = a.conference) :=
      List.mem_filter.mpr ⟨hb, by simp [← hconf]⟩
    by_cases hc : a.conference ∈ (identifyWildCards (identifyDivisionLeaders ts)).map
        (fun t => t.conference)
    · rw [show classify ts
          = calculateConferenceRanks (identifyWildCards (identifyDivisionLeaders ts))
        from rfl, calculateConferenceRanks_filter, if_pos hc] at ha' hb'
      obtain ⟨m, hmlt, ham⟩ := markConferenceRanks_mem_rank ha'
      obtain ⟨n, hnlt, hbn⟩ := markConferenceRanks_mem_rank hb'
      have hmn : m < n := by
        rw [ham, hbn] at hrank
        simpa using hrank
      have hpw := sortTeamsByStandings_pairwise
        ((identifyWildCards (identifyDivisionLeaders ts)).filter
          (fun t => t.conference = a.conference))
      have hral := List.pairwise_iff_getElem.mp hpw m n hmlt hnlt hmn
      rw [ham, hbn]
      exact ranksAtLeast_congr rfl rfl rfl rfl rfl rfl hral
    · rw [show classify ts
          = calculateConferenceRanks (identifyWildCards (identifyDivisionLeaders ts))
        from rfl, calculateConferenceRanks_filter, if_neg hc] at ha'
      simp at ha'
  · -- division leader iff division rank at most 3
    intro t ht
    obtain ⟨t2, ht2, j, rfl⟩ := mem_calculateConferenceRanks ht
    obtain ⟨t1, ht1, rfl⟩ := mem_identifyWildCards ht2
    obtain ⟨t0, ht0, j0, rfl⟩ := mem_identifyDivisionLeaders ht1
    simp only [decide_eq_true_eq]
    omega
  · -- wild card iff id among the top 2 sorted non-leaders
    intro t ht
    obtain ⟨t2, ht2, j, rfl⟩ := mem_calculateConferenceRanks ht
    obtain ⟨t1, ht1, rfl⟩ := mem_identifyWildCards ht2
    simp only [decide_eq_true_eq]

/-- C4 witness: in a concrete four-team division, the top team of the
classified output is a division leader, so its division rank is at
most 3. -/
theorem c4_witness :
    ({ baseTeam with
        id := 1, pointPercentage := 8, isDivisionLeader := true,
        divisionRank := 1, conferenceRank := 1 } : Team).divisionRank ≤ 3 := by
  have hmem : ({ baseTeam with
      id := 1, pointPercentage := 8, isDivisionLeader := true,
      divisionRank := 1, conferenceRank := 1 } : Team) ∈ classify divisionFixture := by
    norm_num [classify, identifyDivisionLeaders, identifyWildCards, calculateConferenceRanks,
      groupProcess, keysInOrder, divisionFixture, sortTeamsByStandings, List.mergeSort,
      List.merge, markDivisionRanks, markConferenceRanks, wildCardIds, nonLeadersOfConference,
      teamLE, compareTeams, applyTiebreaker, baseTeam]
  exact ((c4_classification_spec divisionFixture).2.2.2.2.1 _ hmem).mp rfl

/-! ## Validator lemmas -/

/-- `cleanEntry` passes every per-entry check. -/
lemma validateTeamEntry_cleanEntry (i : ℕ) : validateTeamEntry cleanEntry i = [] := by
  norm_num [validateTeamEntry, cleanEntry, numericFieldErrors, nameStructureErrors,
    JsNum.isFinite, JsNum.lt, JsNum.seq, JsNum.add, JsNum.double, JsVal.truthy,
    JsVal.isObject, JsVal.defaultProp, JsPrim.truthy, JsPrim.isString,
    VALID_DIVISIONS, VALID_CONFERENCES]
  exact ⟨by decide, by decide⟩

/-- `stringNameEntry` also passes every per-entry check: its plain-string
team name skips the nested structure check entirely. -/
lemma validateTeamEntry_stringNameEntry (i : ℕ) : validateTeamEntry stringNameEntry i = [] := by
  norm_num [validateTeamEntry, stringNameEntry, cleanEntry, numericFieldErrors,
    nameStructureErrors, JsNum.isFinite, JsNum.lt, JsNum.seq, JsNum.add, JsNum.double,
    JsVal.truthy, JsVal.isObject, JsVal.defaultProp, JsPrim.truthy, JsPrim.isString,
    VALID_DIVISIONS, VALID_CONFERENCES]
  decide

lemma validateEntries_eq_nil {l : List RawEntry}
    (h : ∀ e ∈ l, ∀ i, validateTeamEntry e i = []) : ∀ i, validateEntries l i = [] := by
  induction l with
  | nil => intro i; rfl
  | cons e rest ih =>
    intro i
    simp only [validateEntries, h e (by simp), List.nil_append]
    exact ih (fun x hx j => h x (by simp [hx]) j) (i + 1)

/-- The all-Atlantic snapshot of 32 structurally clean entries is accepted
by `validateNHLApiResponse`. -/
lemma lopsidedSnapshot_isValid :
    (validateNHLApiResponse (some lopsidedSnapshot)).isValid = true := by
  have hentries : validateEntries (List.replicate 32 cleanEntry) 0 = [] :=
    validateEntries_eq_nil
      (fun e he i => by rw [List.eq_of_mem_replicate he]; exact validateTeamEntry_cleanEntry i) 0
  unfold validateNHLApiResponse lopsidedSnapshot
  simp only [List.length_replicate, hentries]
  norm_num [EXPECTED_TEAM_COUNT]

lemma isValid_parts {standings : List RawEntry}
    (h : (validateNHLApiResponse (some ⟨some standings⟩)).isValid = true) :
    standings.length = 32 ∧ validateEntries standings 0 = [] := by
  unfold validateNHLApiResponse at h
  simp only [List.isEmpty_eq_true, List.append_eq_nil] at h
  rcases h with ⟨hcount, hentries⟩
  refine ⟨?_, hentries⟩
  by_contra hne
  rw [if_pos (by simpa [EXPECTED_TEAM_COUNT] using hne)] at hcount
  cases hcount

lemma validateEntries_forall {l : List RawEntry} :
    ∀ i, validateEntries l i = [] → ∀ e ∈ l, ∃ j, validateTeamEntry e j = [] := by
  induction l with
  | nil => intro i _ e he; cases he
  | cons x rest ih =>
    intro i h e he
    rcases List.append_eq_nil.mp h with ⟨hx, hrest⟩
    rcases List.mem_cons.mp he with rfl | he
    · exact ⟨i, hx⟩
    · exact ih (i + 1) hrest e he

/-- An entry with no per-entry errors has a division name and a conference
name drawn from the fixed valid sets. -/
lemma validateTeamEntry_eq_nil_names {e : RawEntry} {i : ℕ}
    (h : validateTeamEntry e i = []) :
    (∃ dn, e.divisionName = some dn ∧ dn ∈ VALID_DIVISIONS)
    ∧ (∃ cn, e.conferenceName = some cn ∧ cn ∈ VALID_CONFERENCES) := by
  unfold validateTeamEntry at h
  rcases htn : e.teamName with _ | tn <;> rw [htn] at h
  case none => simp [requiredFieldErrors, htn] at h
  rcases hta : e.teamAbbrev with _ | ta <;> rw [hta] at h
  case none => simp [requiredFieldErrors, hta] at h
  rcases hw : e.wins with _ | w <;> rw [hw] at h
  case none => simp [requiredFieldErrors, hw] at h
  rcases hl : e.losses with _ | l <;> rw [hl] at h
  case none => simp [requiredFieldErrors, hl] at h
  rcases hot : e.otLosses with _ | otl <;> rw [hot] at h
  case none => simp [requiredFieldErrors, hot] at h
  rcases hp : e.points with _ | p <;> rw [hp] at h
  case none => simp [requiredFieldErrors, hp] at h
  rcases hgp : e.gamesPlayed with _ | gp <;> rw [hgp] at h
  case none => simp [requiredFieldErrors, hgp] at h
  rcases hrw : e.regulationWins with _ | rws <;> rw [hrw] at h
  case none => simp [requiredFieldErrors, hrw] at h
  rcases hdn : e.divisionName with _ | dn <;> rw [hdn] at h
  case none => simp [requiredFieldErrors, hdn] at h
  rcases hcn : e.conferenceName with _ | cn <;> rw [hcn] at h
  case none => simp [requiredFieldErrors, hcn] at h
  simp only [List.append_eq_nil] at h
  obtain ⟨⟨⟨⟨⟨⟨⟨⟨⟨⟨⟨⟨-, -⟩, -⟩, -⟩, -⟩, -⟩, -⟩, -⟩, -⟩, hdiv⟩, hconf⟩, -⟩, -⟩ := h
  constructor
  · refine ⟨dn, rfl, ?_⟩
    by_contra hmem
    rw [if_pos (by simpa using fun hc => hmem (List.mem_of_elem_eq_true hc))] at hdiv
    cases hdiv
  · refine ⟨cn, rfl, ?_⟩
    by_contra hmem
    rw [if_pos (by simpa using fun hc => hmem (List.mem_of_elem_eq_true hc))] at hconf
    cases hconf

lemma validateDivisionDistribution_iff (data : NHLApiResponse) :
    (validateDivisionDistribution data).isValid = true ↔
      ∀ d ∈ VALID_DIVISIONS, divisionCount data d = 8 := by
  unfold validateDivisionDistribution
  simp only [List.isEmpty_eq_true, List.flatMap_eq_nil_iff]
  constructor
  · intro h d hd
    have := h d hd
    by_contra hne
    rw [if_pos hne] at this
    cases this
  · intro h d hd
    rw [if_neg (by simp [h d hd])]

lemma validateConferenceDistribution_iff (data : NHLApiResponse) :
    (validateConferenceDistribution data).isValid = true ↔
      ∀ c ∈ VALID_CONFERENCES, conferenceCount data c = 16 := by
  unfold validateConferenceDistribution
  simp only [List.isEmpty_eq_true, List.flatMap_eq_nil_iff]
  constructor
  · intro h c hc
    have := h c hc
    by_contra hne
    rw [if_pos hne] at this
    cases this
  · intro h c hc
    rw [if_neg (by simp [h c hc])]

/-- What acceptance by the full validator does guarantee: 32 entries, every
entry with valid division and conference names. -/
lemma validator_accepts_names {standings : List RawEntry}
    (h : (validateNHLApiResponse (some ⟨some standings⟩)).isValid = true) :
    standings.length = 32
    ∧ ∀ e ∈ standings,
        (∃ dn, e.divisionName = some dn ∧ dn ∈ VALID_DIVISIONS)
        ∧ (∃ cn, e.conferenceName = some cn ∧ cn ∈ VALID_CONFERENCES) := by
  rcases isValid_parts h with ⟨hlen, hentries⟩
  refine ⟨hlen, fun e he => ?_⟩
  rcases validateEntries_forall 0 hentries e he with ⟨j, hj⟩
  exact validateTeamEntry_eq_nil_names hj

/-- C1: the claim fails on the code: `validateNHLApiResponse` accepts a
structurally clean 32-team snapshot in which all 32 teams carry the
Atlantic division name, so acceptance does not imply 8 teams per
division. -/
theorem c1_counterexample :
    (validateNHLApiResponse (some lopsidedSnapshot)).isValid = true
    ∧ ((List.replicate 32 cleanEntry).filter
        (fun e => e.divisionName = some "Atlantic")).length = 32 := by
  refine ⟨lopsidedSnapshot_isValid, ?_⟩
  rw [List.filter_eq_self.mpr (fun e he => by rw [List.eq_of_mem_replicate he]; decide)]
  exact List.length_replicate 32 cleanEntry

/-- C1 (amended): acceptance by `validateNHLApiResponse` guarantees exactly
32 entries whose division and conference names come from the 4 known
divisions and 2 known conferences; the 8-per-division and 16-per-conference
distributions are checked only by the separate validators
`validateDivisionDistribution` and `validateConferenceDistribution`, whose
acceptance is exactly the balanced distribution. -/
theorem c1_amended_validation_guarantees :
    (∀ standings : List RawEntry,
      (validateNHLApiResponse (some ⟨some standings⟩)).isValid = true →
        standings.length = 32
        ∧ ∀ e ∈ standings,
            (∃ dn, e.divisionName = some dn ∧ dn ∈ VALID_DIVISIONS)
            ∧ (∃ cn, e.conferenceName = some cn ∧ cn ∈ VALID_CONFERENCES))
    ∧ (∀ data : NHLApiResponse,
        (validateDivisionDistribution data).isValid = true ↔
          ∀ d ∈ VALID_DIVISIONS, divisionCount data d = 8)
    ∧ (∀ data : NHLApiResponse,
        (validateConferenceDistribution data).isValid = true ↔
          ∀ c ∈ VALID_CONFERENCES, conferenceCount data c = 16) :=
  ⟨fun _ h => validator_accepts_names h, validateDivisionDistribution_iff,
    validateConferenceDistribution_iff⟩

/-- C1 witness: the accepted 32-copy snapshot indeed has 32 entries. -/
theorem c1_witness : (List.replicate 32 cleanEntry).length = 32 :=
  (c1_amended_validation_guarantees.1 (List.replicate 32 cleanEntry) lopsidedSnapshot_isValid).1

/-! ## C9: the nested name/abbreviation structure check -/

lemma nameStructureErrors_of_bad (pre fname msg : String) {d : Option JsPrim}
    (hbad : defaultOk d = false) :
    nameStructureErrors pre fname msg (JsVal.obj d)
      = [⟨pre ++ "." ++ fname ++ ".default", msg⟩] := by
  cases d with
  | none => simp [nameStructureErrors, JsVal.truthy, JsVal.isObject, JsVal.defaultProp]
  | some v =>
    unfold defaultOk at hbad
    simp only [nameStructureErrors, JsVal.truthy, JsVal.isObject, JsVal.defaultProp,
      Bool.and_true, if_pos]
    rw [if_pos]
    cases htv : v.truthy <;> cases hsv : v.isString <;> simp_all

lemma mem_validateEntries {l : List RawEntry} :
    ∀ (n i : ℕ) (e : RawEntry), l[i]? = some e →
      ∀ x ∈ validateTeamEntry e (n + i), x ∈ validateEntries l n := by
  induction l with
  | nil =>
    intro n i e hget
    simp at hget
  | cons hd tl ih =>
    intro n i e hget x hx
    match i with
    | 0 =>
      simp only [List.getElem?_cons_zero, Option.some.injEq] at hget
      subst hget
      simp only [Nat.add_zero] at hx
      exact List.mem_append_left _ hx
    | i + 1 =>
      simp only [List.getElem?_cons_succ] at hget
      have hx' : x ∈ validateTeamEntry e (n + 1 + i) := by
        have : n + 1 + i = n + (i + 1) := by omega
        rw [this]
        exact hx
      exact List.mem_append_right _ (ih (n + 1) i e hget x hx')

/-- C9: the claim fails on the code: the structure check runs only when the
name value is an object, so an entry whose `teamName` is a plain string
(which exposes no `default` property at all) produces no
`teamName.default` error. -/
theorem c9_counterexample :
    requiredFieldsPresent stringNameEntry = true
    ∧ stringNameEntry.teamName = some (JsVal.str "Boston Bruins")
    ∧ exposesNonEmptyDefaultString (JsVal.str "Boston Bruins") = false
    ∧ (validateNHLApiResponse (some ⟨some [stringNameEntry]⟩)).errors.all
        (fun err => err.field ≠ "standings[0].teamName.default") = true := by
  refine ⟨by decide, rfl, by decide, ?_⟩
  have hentry := validateTeamEntry_stringNameEntry 0
  unfold validateNHLApiResponse
  simp [validateEntries, hentry, EXPECTED_TEAM_COUNT]

/-- C9 (amended): for an entry with all required fields present whose
`teamName` (resp. `teamAbbrev`) is an **object** without a non-empty string
`default`, the validator reports an error on that field; values that are
not objects are not checked (see the counterexample). -/
theorem c9_amended_name_check :
    ∀ (standings : List RawEntry) (i : ℕ) (e : RawEntry),
      standings[i]? = some e →
      requiredFieldsPresent e = true →
      (∀ d, e.teamName = some (JsVal.obj d) → defaultOk d = false →
        ∃ err ∈ (validateNHLApiResponse (some ⟨some standings⟩)).errors,
          err.field = "standings[" ++ toString i ++ "].teamName.default")
      ∧ (∀ d, e.teamAbbrev = some (JsVal.obj d) → defaultOk d = false →
        ∃ err ∈ (validateNHLApiResponse (some ⟨some standings⟩)).errors,
          err.field = "standings[" ++ toString i ++ "].teamAbbrev.default") := by
  intro standings i e hget hreq
  simp only [requiredFieldsPresent, Bool.and_eq_true, Option.isSome_iff_exists] at hreq
  obtain ⟨⟨⟨⟨⟨⟨⟨⟨⟨⟨tn, htn⟩, ta, hta⟩, w, hw⟩, l, hl⟩, otl, hot⟩, p, hp⟩, gp, hgp⟩,
    rws, hrw⟩, dn, hdn⟩, cn, hcn⟩ := hreq
  have hsub : ∀ x ∈ validateTeamEntry e i,
      x ∈ (validateNHLApiResponse (some ⟨some standings⟩)).errors := by
    intro x hx
    unfold validateNHLApiResponse
    refine List.mem_append_right _ ?_
    have hx' : x ∈ validateTeamEntry e (0 + i) := by
      rw [Nat.zero_add]
      exact hx
    exact mem_validateEntries 0 i e hget x hx'
  constructor
  · intro d htnd hbad
    rw [htnd] at htn
    refine ⟨⟨"standings[" ++ toString i ++ "]" ++ "." ++ "teamName" ++ ".default",
      "Team name must have a default string property"⟩, hsub _ ?_,
      by simp [String.append_assoc]⟩
    unfold validateTeamEntry
    rw [htnd, hta, hw, hl, hot, hp, hgp, hrw, hdn, hcn]
    refine List.mem_append_left _ (List.mem_append_right _ ?_)
    rw [nameStructureErrors_of_bad _ _ _ hbad]
    exact List.mem_singleton_self _
  · intro d htad hbad
    rw [htad] at hta
    refine ⟨⟨"standings[" ++ toString i ++ "]" ++ "." ++ "teamAbbrev" ++ ".default",
      "Team abbreviation must have a default string property"⟩, hsub _ ?_,
      by simp [String.append_assoc]⟩
    unfold validateTeamEntry
    rw [htn, htad, hw, hl, hot, hp, hgp, hrw, hdn, hcn]
    refine List.mem_append_right _ ?_
    rw [nameStructureErrors_of_bad _ _ _ hbad]
    exact List.mem_singleton_self _

/-- C9 witness: a one-entry snapshot whose team name object lacks a
`default` property gets a `teamName.default` validation error. -/
theorem c9_witness :
    ∃ err ∈ (validateNHLApiResponse (some ⟨some [badNameEntry]⟩)).errors,
      err.field = "standings[" ++ toString 0 ++ "].teamName.default" :=
  (c9_amended_name_check [badNameEntry] 0 badNameEntry rfl (by decide)).1
    none rfl rfl

/-! ## Acquirer lemmas (C6) -/

lemma fetchLoop_error_inv :
    ∀ (attempts : List FetchOutcome) (acc : Option String) (cache : Option CacheEntry)
      (msg : String), fetchLoop attempts acc cache = .error msg →
      (∀ a ∈ attempts, ∃ m, attemptResult a = .error m)
      ∧ (∃ m2, loadCachedData cache = .error m2) := by
  intro attempts
  induction attempts with
  | nil =>
    intro acc cache msg h
    refine ⟨by simp, ?_⟩
    unfold fetchLoop at h
    cases hc : loadCachedData cache with
    | ok r => rw [hc] at h; cases h
    | error m => exact ⟨m, rfl⟩
  | cons a rest ih =>
    intro acc cache msg h
    unfold fetchLoop at h
    cases ha : attemptResult a with
    | ok payload => rw [ha] at h; cases h
    | error m =>
      rw [ha] at h
      rcases ih _ _ _ h with ⟨h1, h2⟩
      refine ⟨fun x hx => ?_, h2⟩
      rcases List.mem_cons.mp hx with rfl | hx
      · exact ⟨m, ha⟩
      · exact h1 x hx

lemma fetchLoop_stale :
    ∀ (attempts : List FetchOutcome) (acc : Option String) (cache : Option CacheEntry)
      (r : FetchResult), (∀ a ∈ attempts, ∃ m, attemptResult a = .error m) →
      loadCachedData cache = .ok r → fetchLoop attempts acc cache = .ok r := by
  intro attempts
  induction attempts with
  | nil =>
    intro acc cache r _ hc
    unfold fetchLoop
    rw [hc]
  | cons a rest ih =>
    intro acc cache r hfail hc
    rcases hfail a (by simp) with ⟨m, ha⟩
    unfold fetchLoop
    rw [ha]
    exact ih _ cache r (fun x hx => hfail x (by simp [hx])) hc

lemma fetchLoop_fatal :
    ∀ (attempts : List FetchOutcome) (acc : Option String) (cache : Option CacheEntry),
      (∀ a ∈ attempts, ∃ m, attemptResult a = .error m) →
      (∃ m2, loadCachedData cache = .error m2) →
      fetchLoop attempts acc cache = .error (fatalMessage (lastErrorAfter attempts acc)) := by
  intro attempts
  induction attempts with
  | nil =>
    intro acc cache _ hc
    rcases hc with ⟨m2, hc⟩
    unfold fetchLoop lastErrorAfter
    rw [hc]
  | cons a rest ih =>
    intro acc cache hfail hc
    rcases hfail a (by simp) with ⟨m, ha⟩
    unfold fetchLoop lastErrorAfter
    rw [ha]
    exact ih _ cache (fun x hx => hfail x (by simp [hx])) hc

/-- C6: `fetchNHLData` fails only when every fetch attempt fails and the
cache is unusable; when every attempt fails but the cache holds a payload
that passes validation, it returns that payload tagged stale with the
cache's original timestamp; and when the cache is absent or invalid, the
fatal error message names the last fetch failure. -/
theorem c6_fetchNHLData_spec :
    ∀ (attempts : List FetchOutcome) (cache : Option CacheEntry),
      (∀ msg, fetchNHLData attempts cache = .error msg →
        (∀ a ∈ attempts, ∃ m, attemptResult a = .error m)
        ∧ (∃ m2, loadCachedData cache = .error m2))
      ∧ (∀ (entry : CacheEntry) (payload : RawPayload),
          (∀ a ∈ attempts, ∃ m, attemptResult a = .error m) →
          cache = some entry → entry.data = some payload →
          (validateNHLApiResponse (some payload)).isValid = true →
          fetchNHLData attempts cache = .ok ⟨payload, true, some entry.timestamp⟩)
      ∧ (∀ lastMsg,
          (∀ a ∈ attempts, ∃ m, attemptResult a = .error m) →
          (∃ m2, loadCachedData cache = .error m2) →
          lastErrorAfter attempts none = some lastMsg →
          fetchNHLData attempts cache = .error
            ("Failed to fetch NHL data after " ++ toString MAX_RETRIES
              ++ " attempts and no cached data available. Last error: " ++ lastMsg)) := by
  intro attempts cache
  refine ⟨?_, ?_, ?_⟩
  · intro msg h
    exact fetchLoop_error_inv attempts none cache msg h
  · intro entry payload hfail hcache hdata hvalid
    have hload : loadCachedData cache = .ok ⟨payload, true, some entry.timestamp⟩ := by
      rw [hcache]
      simp [loadCachedData, hdata, hvalid]
    exact fetchLoop_stale attempts none cache _ hfail hload
  · intro lastMsg hfail hcache hlast
    have h := fetchLoop_fatal attempts none cache hfail hcache
    rw [hlast] at h
    exact h

/-- C6 witness: with three failing attempts, a valid cached payload is
returned stale with its original timestamp, and with no cache the fatal
error names the last fetch failure (the HTTP 500 of attempt 3). -/
theorem c6_witness :
    fetchNHLData [.netError "boom1", .netError "boom2", .httpError 500]
        (some ⟨some lopsidedSnapshot, "2024-01-01T00:00:00Z"⟩)
      = .ok ⟨lopsidedSnapshot, true, some "2024-01-01T00:00:00Z"⟩
    ∧ fetchNHLData [.netError "boom1", .netError "boom2", .httpError 500] none
      = .error ("Failed to fetch NHL data after " ++ toString MAX_RETRIES
          ++ " attempts and no cached data available. Last error: "
          ++ ("HTTP error! status: " ++ toString 500)) := by
  have hfail : ∀ a ∈ ([.netError "boom1", .netError "boom2", .httpError 500] :
      List FetchOutcome), ∃ m, attemptResult a = .error m := by
    intro a ha
    rcases List.mem_cons.mp ha with rfl | ha
    · exact ⟨"boom1", rfl⟩
    rcases List.mem_cons.mp ha with rfl | ha
    · exact ⟨"boom2", rfl⟩
    rcases List.mem_cons.mp ha with rfl | ha
    · exact ⟨"HTTP error! status: " ++ toString 500, rfl⟩
    · cases ha
  constructor
  · exact (c6_fetchNHLData_spec [.netError "boom1", .netError "boom2", .httpError 500]
      (some ⟨some lopsidedSnapshot, "2024-01-01T00:00:00Z"⟩)).2.1
      ⟨some lopsidedSnapshot, "2024-01-01T00:00:00Z"⟩ lopsidedSnapshot
      hfail rfl rfl lopsidedSnapshot_isValid
  · exact (c6_fetchNHLData_spec [.netError "boom1", .netError "boom2", .httpError 500]
      none).2.2 ("HTTP error! status: " ++ toString 500) hfail
      ⟨"No cached data available", rfl⟩ rfl

/-! ## Cache write (C8) -/

/-- C8: the claim fails on the code: `cacheResponse` performs a single
direct `writeFileSync` to the final cache path, with no temporary file and
no rename, in both the existing-directory and missing-directory cases. -/
theorem c8_counterexample :
    cacheResponseOps true "serialized" = [FsOp.writeFile CACHE_FILE "serialized"]
    ∧ cacheResponseOps false "serialized"
        = [FsOp.mkdirRecursive CACHE_DIR, FsOp.writeFile CACHE_FILE "serialized"] :=
  ⟨rfl, rfl⟩

/-- C8 (amended): the cache write is a direct, non-atomic write: every
operation in the trace is either the cache-directory creation or the single
`writeFileSync` of the serialized entry at the final cache path, the direct
write always occurs, and no rename operation ever occurs. -/
theorem c8_amended_direct_write :
    ∀ (dirExists : Bool) (serialized : String),
      FsOp.writeFile CACHE_FILE serialized ∈ cacheResponseOps dirExists serialized
      ∧ (∀ op ∈ cacheResponseOps dirExists serialized,
          op = FsOp.mkdirRecursive CACHE_DIR ∨ op = FsOp.writeFile CACHE_FILE serialized)
      ∧ (∀ src dst, FsOp.rename src dst ∉ cacheResponseOps dirExists serialized) := by
  intro dirExists serialized
  cases dirExists <;> simp [cacheResponseOps]

/-- C8 witness: in the existing-directory trace, the one operation present
is the direct write of the serialized entry to the cache file. -/
theorem c8_witness :
    FsOp.writeFile CACHE_FILE "x" = FsOp.mkdirRecursive CACHE_DIR
    ∨ FsOp.writeFile CACHE_FILE "x" = FsOp.writeFile CACHE_FILE "x" :=
  (c8_amended_direct_write true "x").2.1 (FsOp.writeFile CACHE_FILE "x")
    (by simp [cacheResponseOps])

/-! ## Processor lemmas (C10) -/

lemma transformFrom_map_id :
    ∀ (es : List NHLStandingEntry) (i : ℕ),
      (transformFrom es i).map (fun t => t.id) = List.range' (i + 1) es.length := by
  intro es
  induction es with
  | nil => intro i; rfl
  | cons e rest ih =>
    intro i
    simp only [transformFrom, List.map_cons, List.length_cons, List.range'_succ, ih]

lemma mem_transformFrom_conference :
    ∀ (es : List NHLStandingEntry) (i : ℕ) (t : Team), t ∈ transformFrom es i →
      ∃ e ∈ es, t.conference = e.conferenceName := by
  intro es
  induction es with
  | nil =>
    intro i t ht
    cases ht
  | cons e rest ih =>
    intro i t ht
    rcases List.mem_cons.mp ht with rfl | ht
    · exact ⟨e, by simp, rfl⟩
    · rcases ih (i + 1) t ht with ⟨e2, he2, hc⟩
      exact ⟨e2, by simp [he2], hc⟩

lemma mem_classifiedTeams_conference (raw : NHLApiResponse) :
    ∀ t ∈ classifiedTeams raw, ∃ e ∈ raw.standings, t.conference = e.conferenceName := by
  intro t ht
  obtain ⟨t2, ht2, j, rfl⟩ := mem_calculateConferenceRanks ht
  obtain ⟨t1, ht1, rfl⟩ := mem_identifyWildCards ht2
  obtain ⟨t0, ht0, j0, rfl⟩ := mem_identifyDivisionLeaders ht1
  rcases List.mem_map.mp ht0 with ⟨tb, htb, rfl⟩
  rcases mem_transformFrom_conference raw.standings 0 tb htb with ⟨e, he, hc⟩
  exact ⟨e, he, hc⟩

lemma organizeConference_divisions_perm (teams : List Team) (c : String) :
    ((organizeConference teams c).divisions.flatMap (fun p => p.2))
      ~ teams.filter (fun t => t.conference = c) := by
  unfold organizeConference
  rw [List.flatMap_map]
  refine List.Perm.trans
    (flatMap_perm_congr _ _
      (fun d => (teams.filter (fun t => t.conference = c)).filter (fun t => t.division = d))
      (fun k _ => sortTeamsByStandings_perm _)) ?_
  exact flatMap_fibers_perm (fun t : Team => t.division)
    (teams.filter (fun t => t.conference = c)).length _ le_rfl

lemma filter_conference_partition (teams : List Team)
    (h : ∀ t ∈ teams, t.conference = "Eastern" ∨ t.conference = "Western") :
    teams.filter (fun t => t.conference = "Eastern")
      ++ teams.filter (fun t => t.conference = "Western") ~ teams := by
  have hperm := List.filter_append_perm (fun t => decide (t.conference = "Eastern")) teams
  have hcong : teams.filter (fun t => !(decide (t.conference = "Eastern")))
      = teams.filter (fun t => t.conference = "Western") := by
    apply List.filter_congr
    intro t ht
    rcases h t ht with he | hw
    · simp [he]
    · simp [hw]
  rw [hcong] at hperm
  exact hperm

lemma classifiedTeams_map_id_perm (raw : NHLApiResponse) :
    (classifiedTeams raw).map (fun t => t.id)
      ~ (transformToTeams raw.standings).map (fun t => t.id) := by
  unfold classifiedTeams
  calc (calculateConferenceRanks (identifyWildCards (identifyDivisionLeaders
          ((transformToTeams raw.standings).map (fun t =>
            { t with pointPercentage := calculatePointPercentage t.points t.gamesPlayed }))))).map
        (fun t => t.id)
      ~ ((transformToTeams raw.standings).map (fun t =>
          { t with pointPercentage := calculatePointPercentage t.points t.gamesPlayed })).map
          (fun t => t.id) := by
        exact ((calculateConferenceRanks_map_perm _ (fun t => t.id) (fun t r => rfl)).trans
          ((identifyWildCards_map_perm _ (fun t => t.id) (fun t b => rfl)).trans
            (identifyDivisionLeaders_map_perm _ (fun t => t.id) (fun t b r => rfl))))
    _ = (transformToTeams raw.standings).map (fun t => t.id) := by
        rw [List.map_map]
        rfl

/-- C10: for a validated 32-team snapshot with Eastern/Western conference
names, `processStandings` assigns unique sequential ids 1..32 in input
order, every input team appears exactly once across the division lists of
the two conferences, and each conference's wild-card list is exactly its
non-division-leaders, each once, in sorted standing order. -/
theorem c10_processStandings_spec :
    ∀ (raw : NHLApiResponse) (now : String),
      (validateNHLApiResponse
        (some ⟨some (raw.standings.map NHLStandingEntry.toRaw)⟩)).isValid = true →
      (transformToTeams raw.standings).map (fun t => t.id) = List.range' 1 32
      ∧ (((processStandings raw now).eastern.divisions.flatMap (fun p => p.2)
          ++ (processStandings raw now).western.divisions.flatMap (fun p => p.2)).map
            (fun t => t.id)) ~ List.range' 1 32
      ∧ (processStandings raw now).eastern.wildCards
          ~ nonLeadersOfConference (classifiedTeams raw) "Eastern"
      ∧ (processStandings raw now).eastern.wildCards.Pairwise ranksAtLeast
      ∧ (processStandings raw now).western.wildCards
          ~ nonLeadersOfConference (classifiedTeams raw) "Western"
      ∧ (processStandings raw now).western.wildCards.Pairwise ranksAtLeast := by
  intro raw now hvalid
  have hnames := validator_accepts_names hvalid
  have hlen : raw.standings.length = 32 := by
    have := hnames.1
    simpa using this
  have hids : (transformToTeams raw.standings).map (fun t => t.id) = List.range' 1 32 := by
    rw [transformToTeams, transformFrom_map_id, hlen]
  have hconfE : ∀ e ∈ raw.standings,
      e.conferenceName = "Eastern" ∨ e.conferenceName = "Western" := by
    intro e he
    rcases (hnames.2 _ (List.mem_map_of_mem _ he)).2 with ⟨cn, hcn, hmem⟩
    have hecn : e.conferenceName = cn := by
      simpa [NHLStandingEntry.toRaw] using hcn
    rw [hecn]
    simpa [VALID_CONFERENCES] using hmem
  have hconfC : ∀ t ∈ classifiedTeams raw,
      t.conference = "Eastern" ∨ t.conference = "Western" := by
    intro t ht
    rcases mem_classifiedTeams_conference raw t ht with ⟨e, he, hc⟩
    rw [hc]
    exact hconfE e he
  have heast : (processStandings raw now).eastern
      = organizeConference (classifiedTeams raw) "Eastern" := rfl
  have hwest : (processStandings raw now).western
      = organizeConference (classifiedTeams raw) "Western" := rfl
  refine ⟨hids, ?_, ?_, ?_, ?_, ?_⟩
  · have hE := organizeConference_divisions_perm (classifiedTeams raw) "Eastern"
    have hW := organizeConference_divisions_perm (classifiedTeams raw) "Western"
    have happend := (hE.append hW).trans (filter_conference_partition _ hconfC)
    calc ((processStandings raw now).eastern.divisions.flatMap (fun p => p.2)
          ++ (processStandings raw now).western.divisions.flatMap (fun p => p.2)).map
            (fun t => t.id)
        ~ (classifiedTeams raw).map (fun t => t.id) := by
          rw [heast, hwest]
          exact happend.map (fun t => t.id)
      _ ~ (transformToTeams raw.standings).map (fun t => t.id) :=
          classifiedTeams_map_id_perm raw
      _ = List.range' 1 32 := hids
  · rw [heast]
    exact sortTeamsByStandings_perm _
  · rw [heast]
    exact sortTeamsByStandings_pairwise _
  · rw [hwest]
    exact sortTeamsByStandings_perm _
  · rw [hwest]
    exact sortTeamsByStandings_pairwise _

/-- C10 witness: the 32-entry typed response built from `cleanTypedEntry`
passes validation, and its transformed teams get ids 1..32. -/
theorem c10_witness :
    (transformToTeams raw32.standings).map (fun t => t.id) = List.range' 1 32 := by
  have hmap : raw32.standings.map NHLStandingEntry.toRaw = List.replicate 32 cleanEntry := by
    rw [show raw32.standings = List.replicate 32 cleanTypedEntry from rfl, List.map_replicate]
    rfl
  exact (c10_processStandings_spec raw32 "now"
    (by rw [hmap]; exact lopsidedSnapshot_isValid)).1

end NHL
